import Mathlib

/-!
# spray: request pipeline and response classification

A shallow embedding of the per-target pool of `internal/pool.go`, the exact
comparator of `internal/baseline.go`, the error kinds of `internal/types.go`
and the status tables of `internal/runner.go`.

Conventions of the embedding

* Go `int` values are `Int`; the counters of the pool start at 1 and grow by
  one or two per request, so wrap-around at `2^63` is not modelled.
* A Go `map[K]V` is a function `K → Option V`; a channel is the list of
  values sent on it so far, oldest first.
* A pointer that may be `nil` is an `Option`; dereferencing `none`, dividing
  by zero, slicing out of range, and locking a `sync.Mutex` the goroutine
  already holds end the run with a `Stop`.
* Logging, timing, the progress bar and `sync.WaitGroup` bookkeeping carry no
  data the pool reads back and are left out.
* Code that is not part of the sources (the `pkg.Baseline` methods, the URL
  helpers) and the libraries (`net/url`, `expr`, `rule`, hashing) are fields
  of `Env`, or are modelled from the specification where a doc comment says
  so.
-/

namespace Spray

/-! ## `internal/types.go` -/

/-- The error kinds declared in `types.go`. -/
inductive ErrorType
  | ErrBadStatus
  | ErrSameStatus
  | ErrRequestFailed
  | ErrWaf
  | ErrRedirect
  | ErrCompareFailed
  | ErrFuzzyCompareFailed
  deriving DecidableEq, Repr

/-- The method `ErrorType.Error` of `types.go`, on the declared constants. -/
def ErrorType.Error : ErrorType → String
  | .ErrBadStatus => "bad status"
  | .ErrSameStatus => "same status"
  | .ErrRequestFailed => "request failed"
  | .ErrWaf => "maybe ban of waf"
  | .ErrRedirect => "duplicate redirect url"
  | .ErrCompareFailed => "compare failed"
  | .ErrFuzzyCompareFailed => "fuzzy compare failed"

/-- Source tags of a request. `CheckSource`, `InitRandomSource` and
`InitIndexSource` are the constants 1, 2, 3 of `types.go`, `WordSource`
follows them; the remaining tags used by `pool.go` are
modelled from the spec: section 3 lists Redirect, Crawl, Rule, Active and Bak,
all declared after the three initial ones. -/
inductive sourceType
  | CheckSource
  | InitRandomSource
  | InitIndexSource
  | WordSource
  | RedirectSource
  | CrawlSource
  | RuleSource
  | ActiveSource
  | BakSource
  deriving DecidableEq, Repr

/-- The test `unit.source <= 3` of the worker. -/
def sourceType.le3 : sourceType → Bool
  | .CheckSource => true
  | .InitRandomSource => true
  | .InitIndexSource => true
  | _ => false

/-- A pending probe (`Unit` as `pool.go` builds it: path, source, front URL,
depth). -/
structure Unit where
  path : String
  source : sourceType
  frontUrl : String := ""
  depth : Int := 0
  deriving DecidableEq, Repr

/-- The constructor `newUnit` of `types.go`. -/
def newUnit (path : String) (source : sourceType) : Unit :=
  { path := path, source := source }

/-! ## `internal/runner.go` and the package variables of `pool.go` -/

/-- The package-level variables read by the pool. They are Go `var`s, so the
functions below take them as an argument. -/
structure Globals where
  WhiteStatus : List Int
  BlackStatus : List Int
  FuzzyStatus : List Int
  WAFStatus : List Int
  maxRedirect : Int
  maxCrawl : Int
  maxRecursion : Int

/-- The declared initial values (`runner.go` lines 19-25, `pool.go` lines
24-29). -/
def Globals.init : Globals :=
  { WhiteStatus := [200]
    BlackStatus := [400, 410]
    FuzzyStatus := [403, 404, 500, 501, 502, 503]
    WAFStatus := [493, 418, 1020, 406]
    maxRedirect := 3
    maxCrawl := 3
    maxRecursion := 0 }

/-- Modelled from the spec: the helper `IntsContains` is not among the
sources; the specification reads `IntsContains(L, s)` as "s ∈ L". -/
def IntsContains (l : List Int) (s : Int) : Bool :=
  l.any (fun x => x == s)

/-! ## `internal/baseline.go` -/

/-- The fields of `net/url.URL` that the pool reads. -/
structure URL where
  Scheme : String := ""
  Host : String := ""
  Path : String := ""
  deriving DecidableEq, Repr

/-- The record `baseline` of `internal/baseline.go`. -/
structure baseline where
  Url : URL := {}
  UrlString : String := ""
  Body : List UInt8 := []
  BodyLength : Int := 0
  Header : String := ""
  Response : String := ""
  HeaderLength : Int := 0
  RedirectURL : String := ""
  Status : Int := 0
  Md5 : String := ""
  Mmh3 : String := ""
  Simhash : String := ""
  IsDynamicUrl : Bool := false
  Spended : Int := 0
  Frameworks : List String := []
  Extracteds : List String := []
  Err : Option String := none
  IsValid : Bool := false
  deriving DecidableEq

/-- The method `baseline.Compare` of `internal/baseline.go` (lines 107-117). -/
def baseline.Compare (bl other : baseline) : Bool :=
  if bl.Md5 = other.Md5 then true
  else if bl.RedirectURL = other.RedirectURL then true
  else false

/-! ## `pkg.Baseline`, as `pool.go` uses it -/

/-- The record `pkg.Baseline`. Its declaration is not among the sources: the
fields are those `pool.go` reads or writes, together with the fingerprints of
section 3 of the specification. `Url` is kept as a value (the zero URL where
Go has `nil`). -/
structure Baseline where
  Url : URL := {}
  UrlString : String := ""
  Path : String := ""
  Dir : Bool := false
  Body : String := ""
  BodyLength : Int := 0
  ExceedLength : Bool := false
  RedirectURL : String := ""
  FrontURL : String := ""
  Status : Int := 0
  Md5 : String := ""
  Mmh3 : String := ""
  Simhash : String := ""
  IsDynamicUrl : Bool := false
  Frameworks : List String := []
  Extracteds : List String := []
  URLs : List String := []
  Spended : Int := 0
  Source : Option sourceType := none
  ReqDepth : Int := 0
  RecuDepth : Int := 0
  Recu : Bool := false
  IsValid : Bool := false
  IsFuzzy : Bool := false
  Reason : String := ""
  ErrString : String := ""
  collected : Bool := false
  deriving DecidableEq

/-- The response accessors the pool uses (`ihttp.Response`). -/
structure Response where
  StatusCode : Int
  GetHeader : String → String

/-- The compiled expression `*vm.Program`, identified by its source text. -/
abbrev Program := String

/-- The variable bag handed to the expression engine: `index`, `random`,
`current` and the entries `bl<status>`. -/
structure Params where
  index : Option Baseline
  random : Option Baseline
  current : Baseline
  bl : List (Int × Baseline)

/-- What `expr.Run` returns, as far as `CompareWithExpr` looks at it. -/
inductive ExprResult
  | bool (b : Bool)
  | other
  deriving DecidableEq

/-- The request accessors the worker passes on (`req.URI()`, `req.Host()`). -/
structure Request where
  URI : String := ""
  Host : String := ""
  deriving DecidableEq

/-- The error returned by `client.Do`: `fasthttp.ErrBodyTooLarge`, or another
error with its message. -/
inductive ReqErr
  | ErrBodyTooLarge
  | other (msg : String)
  deriving DecidableEq

/-- The method `Error` of a transport error. -/
def ReqErr.Error : ReqErr → String
  | .ErrBodyTooLarge => "body size exceeds the given limit"
  | .other msg => msg

/-- What the worker obtains from `genReq` and `client.Do` for one unit: the
request (`none` when `genReq` failed), the response, the transport error and
the elapsed milliseconds. -/
structure Exchange where
  req : Option Request := some {}
  resp : Response
  reqerr : Option ReqErr := none
  spended : Int := 0

/-- The values of `pool.Mod`. -/
inductive SprayMod
  | PathSpray
  | HostSpray
  | unknown
  deriving DecidableEq

/-- Collaborators outside the sources. -/
structure Env where
  /-- `pkg.NewBaseline(uri, host, resp)`. -/
  NewBaseline : Request → Response → Baseline
  /-- `pkg.NewInvalidBaseline(uri, host, resp, reason)`. -/
  NewInvalidBaseline : Request → Response → String → Baseline
  /-- `net/url.Parse`; `none` is a parse error. -/
  Parse : String → Option URL
  /-- `(*url.URL).Hostname`. -/
  Hostname : URL → String
  /-- `pkg.URLJoin`. -/
  URLJoin : String → String → String
  /-- `(*pkg.Baseline).Compare`, the integer-valued comparison. -/
  Compare : Baseline → Baseline → Int
  /-- `(*pkg.Baseline).FuzzyCompare`. -/
  FuzzyCompare : Baseline → Baseline → Bool
  /-- `expr.Run`; the program may be `nil`. -/
  exprRun : Option Program → Option Params → ExprResult
  /-- `rule.RunAsStream` on the append rules and a base name. -/
  RunAsStream : List String → String → List String
  /-- `path.Base`, `path.Dir`, `path.Join`. -/
  pathBase : String → String
  pathDir : String → String
  pathJoin : String → String → String
  /-- Fingerprints computed by `Collect`. -/
  Md5Hash : String → String
  Mmh3Hash32 : String → String
  Simhash : String → String
  FingerDetect : String → List String
  Extract : String → List String
  /-- The URLs `CollectURL` finds in a body. -/
  ExtractURLs : String → List String
  /-- `ihttp.DefaultMaxBodySize`. -/
  DefaultMaxBodySize : Int

/-- How a run of Go code ends other than by returning. -/
inductive Stop
  | nilDeref
  | divByZero
  | deadlock
  | sliceBounds
  deriving DecidableEq, Repr

/-! ## The pool -/

/-- The counters of `pkg.Statistor` that the pool updates. -/
structure Statistor where
  ReqTotal : Int := 0
  FailedNumber : Int := 0
  FoundNumber : Int := 0
  FilteredNumber : Int := 0
  FuzzyNumber : Int := 0
  CheckNumber : Int := 0
  End : Int := 0
  Counts : Int → Option Int := fun _ => none

/-- The record `Pool` of `pool.go` with the fields of the embedded
`*pkg.Config` that the pool reads. `cancelled` records that `pool.cancel()`
has been called. -/
structure Pool where
  BaseURL : String := ""
  Mod : SprayMod := .PathSpray
  CheckPeriod : Int := 0
  ErrPeriod : Int := 0
  BreakThreshold : Int := 0
  Fuzzy : Bool := false
  Crawl : Bool := false
  MatchExpr : Option Program := none
  FilterExpr : Option Program := none
  RecuExpr : Option Program := none
  AppendRule : Option (List String) := none
  OutputCh : List Baseline := []
  FuzzyCh : List Baseline := []
  Statistor : Statistor := {}
  cancelled : Bool := false
  tempCh : List Baseline := []
  checkCh : List sourceType := []
  additionCh : List Unit := []
  reqCount : Int := 0
  failedCount : Int := 0
  isFailed : Bool := false
  failedBaselines : List Baseline := []
  random : Option Baseline := none
  index : Option Baseline := none
  baselines : Int → Option Baseline := fun _ => none
  urls : String → Option Int := fun _ => none

/-- The pool as `NewPool` leaves it (lines 33-48): empty maps and channels,
`reqCount` and `failedCount` equal to 1. -/
def NewPool (config : Pool) : Pool :=
  { config with
    cancelled := false
    tempCh := []
    checkCh := []
    additionCh := []
    reqCount := 1
    failedCount := 1
    isFailed := false
    failedBaselines := []
    random := none
    index := none
    baselines := fun _ => none
    urls := fun _ => none }

/-- The method `Pool.checkRedirect` (lines 286-294). -/
def Pool.checkRedirect (pool : Pool) (redirectURL : String) : Except Stop Bool :=
  match pool.random with
  | none => .error .nilDeref
  | some random =>
    if redirectURL = random.RedirectURL then .ok false
    else .ok true

/-- The method `Pool.PreCompare` (lines 373-396); `none` is the `nil` error. -/
def Pool.PreCompare (G : Globals) (pool : Pool) (resp : Response) :
    Except Stop (Option ErrorType) :=
  let status := resp.StatusCode
  if IntsContains G.WhiteStatus status then .ok none
  else if (match pool.random with
      | some random => decide (random.Status ≠ 200) && decide (random.Status = status)
      | none => false) then .ok (some .ErrSameStatus)
  else if IntsContains G.BlackStatus status then .ok (some .ErrBadStatus)
  else if IntsContains G.WAFStatus status then .ok (some .ErrWaf)
  else
    match pool.checkRedirect (resp.GetHeader "Location") with
    | .error e => .error e
    | .ok ok => if !ok then .ok (some .ErrRedirect) else .ok none

/-- Modelled from the spec: the method `(*pkg.Baseline).Collect` is not among
the sources. Section 4.1: it computes MD5 and MMH3 over the body, the Simhash,
the framework matches and the extracted items, sets `IsDynamicUrl` when the
body contains the request path, and is a no-op when called again. -/
def Baseline.Collect (E : Env) (bl : Baseline) : Baseline :=
  if bl.collected then bl
  else
    { bl with
      Md5 := E.Md5Hash bl.Body
      Mmh3 := E.Mmh3Hash32 bl.Body
      Simhash := E.Simhash bl.Body
      Frameworks := E.FingerDetect bl.Body
      Extracteds := E.Extract bl.Body
      IsDynamicUrl := decide (bl.Path.toList <:+: bl.Body.toList)
      collected := true }

/-- Modelled from the spec: the method `(*pkg.Baseline).CollectURL` is not
among the sources. Section 4.7: the body is parsed into a set of URLs, kept in
`URLs`. -/
def Baseline.CollectURL (E : Env) (bl : Baseline) : Baseline :=
  { bl with URLs := E.ExtractURLs bl.Body }

/-- The method `Pool.putToFuzzy` (lines 605-608). -/
def Pool.putToFuzzy (pool : Pool) (bl : Baseline) : Pool × Baseline :=
  let bl := { bl with IsFuzzy := true }
  ({ pool with FuzzyCh := pool.FuzzyCh ++ [bl] }, bl)

/-- Lines 402-414 of `Pool.BaseCompare`: the learned baseline picked for
`bl`, `none` when `ok` stays false. -/
def Pool.BaseCompare.base (pool : Pool) (bl : Baseline) : Except Stop (Option Baseline) :=
  match pool.baselines bl.Status with
  | some base => .ok (some base)
  | none =>
    match pool.random with
    | none => .error .nilDeref
    | some random =>
      if random.Status = bl.Status then .ok (some random)
      else
        match pool.index with
        | none => .error .nilDeref
        | some index =>
          if index.Status = bl.Status then .ok (some index)
          else .ok none

/-- The method `Pool.BaseCompare` (lines 398-443). It returns the verdict, the
pool and the baseline as the call leaves them. -/
def Pool.BaseCompare (E : Env) (pool : Pool) (bl : Baseline) :
    Except Stop (Bool × Pool × Baseline) :=
  if !bl.IsValid then .ok (false, pool, bl)
  else
    match Pool.BaseCompare.base pool bl with
    | .error e => .error e
    | .ok none =>
      let bl := bl.Collect E
      .ok (true, pool, bl)
    | .ok (some base) =>
      let status := E.Compare base bl
      if status = 1 then
        .ok (false, pool, { bl with Reason := ErrorType.ErrCompareFailed.Error })
      else
        let bl := bl.Collect E
        if status = 0 ∧ E.FuzzyCompare base bl = true then
          let pool := { pool with
            Statistor := { pool.Statistor with FuzzyNumber := pool.Statistor.FuzzyNumber + 1 } }
          let bl := { bl with Reason := ErrorType.ErrFuzzyCompareFailed.Error }
          let (pool, bl) := pool.putToFuzzy bl
          .ok (false, pool, bl)
        else .ok (true, pool, bl)

/-- Splits a character list at the first occurrence of `c`, which is dropped. -/
def splitAtChar (c : Char) : List Char → List Char × List Char
  | [] => ([], [])
  | x :: xs =>
    if x = c then ([], xs)
    else ((x :: (splitAtChar c xs).1), (splitAtChar c xs).2)

/-- A small URL parser for examples: `scheme://host/path` is split into its
three parts, anything else is a relative reference kept as the path. -/
def sampleParse (u : String) : Option URL :=
  match (splitAtChar ':' u.toList).2 with
  | '/' :: '/' :: hostpath =>
    some
      { Scheme := String.mk (splitAtChar ':' u.toList).1
        Host := String.mk (splitAtChar '/' hostpath).1
        Path := String.mk ('/' :: (splitAtChar '/' hostpath).2) }
  | _ => some { Path := u }

/-- A concrete environment for evaluating the pool on examples: URLs are
parsed by `sampleParse`, a body lists its links separated by blanks, two
baselines compare to 1 when their MD5 agree, to 0 when only their lengths
agree and to -1 otherwise. -/
def sampleEnv : Env :=
  { NewBaseline := fun req resp =>
      { UrlString := req.URI, Path := req.URI, Url := { Scheme := "http", Host := req.Host, Path := req.URI }
        Status := resp.StatusCode, RedirectURL := resp.GetHeader "Location"
        Body := resp.GetHeader "body", BodyLength := (resp.GetHeader "body").length
        IsValid := true }
    NewInvalidBaseline := fun req resp reason =>
      { UrlString := req.URI, Path := req.URI, Url := { Scheme := "http", Host := req.Host, Path := req.URI }
        Status := resp.StatusCode, RedirectURL := resp.GetHeader "Location"
        IsValid := false, Reason := reason }
    Parse := sampleParse
    Hostname := fun u => String.mk (splitAtChar ':' u.Host.toList).1
    URLJoin := fun base u => base ++ u
    Compare := fun a b =>
      if a.Md5 = b.Md5 then 1 else if a.BodyLength = b.BodyLength then 0 else -1
    FuzzyCompare := fun a b => decide (a.Simhash = b.Simhash)
    exprRun := fun prog params =>
      match prog, params with
      | some "current.Status == 200", some bag => .bool (decide (bag.current.Status = 200))
      | some "true", _ => .bool true
      | _, _ => .other
    RunAsStream := fun rules base => rules.map (fun r => base ++ r)
    pathBase := fun p => String.mk ((p.toList.splitOn '/').getLastD [])
    pathDir := fun p => String.mk ((p.toList.splitOn '/').dropLast.intersperse ['/']).flatten
    pathJoin := fun d u => d ++ "/" ++ u
    Md5Hash := fun body => "md5:" ++ body
    Mmh3Hash32 := fun body => "mmh3:" ++ body
    Simhash := fun body => "sim:" ++ toString body.length
    FingerDetect := fun _ => []
    Extract := fun _ => []
    ExtractURLs := fun body =>
      ((body.toList.splitOn ' ').filter (fun w => w.contains '/')).map String.mk
    DefaultMaxBodySize := 102400 }

/-- The library function `strings.HasPrefix`. -/
def HasPrefix (s pre : String) : Bool :=
  pre.toList.isPrefixOf s.toList

/-- The library function `strings.TrimLeft(s, "/")`. -/
def TrimLeftSlash (s : String) : String :=
  String.mk (s.toList.dropWhile (fun c => c == '/'))

/-- The method `Pool.doRedirect` (lines 458-473). -/
def Pool.doRedirect (E : Env) (G : Globals) (pool : Pool) (bl : Baseline) (depth : Int) :
    Except Stop Pool :=
  if depth ≥ G.maxRedirect then .ok pool
  else
    match E.Parse bl.RedirectURL with
    | none => .ok pool
    | some uu =>
      match pool.index with
      | none => .error .nilDeref
      | some index =>
        if E.Hostname uu = E.Hostname index.Url then
          .ok { pool with
            additionCh := pool.additionCh ++
              [{ path := uu.Path, source := .RedirectSource, frontUrl := bl.UrlString,
                 depth := depth + 1 }] }
        else .ok pool

/-- Lines 482-490 of `Pool.doCrawl`: the URL as rewritten at the head of the
loop body. -/
def Pool.doCrawl.resolve (E : Env) (BaseURL : String) (bl : Baseline) (u : String) : String :=
  if HasPrefix u "//" then bl.Url.Scheme ++ u
  else if HasPrefix u "/" then E.URLJoin BaseURL u
  else if !HasPrefix u "http" then E.URLJoin BaseURL u
  else u

/-- Lines 482-515 of `Pool.doCrawl`: the loop body for one extracted URL.
`held` tells whether the calling goroutine already holds `pool.locker`, in
which case `pool.locker.Lock()` never returns. -/
def Pool.doCrawl.visit (E : Env) (G : Globals) (held : Bool) (bl : Baseline) (pool : Pool)
    (u : String) : Except Stop Pool :=
  let u := Pool.doCrawl.resolve E pool.BaseURL bl u
  match pool.urls u with
  | some n => .ok { pool with urls := Function.update pool.urls u (some (n + 1)) }
  | none =>
    if held then .error .deadlock
    else
      let pool := { pool with urls := Function.update pool.urls u (some 1) }
      if bl.ReqDepth < G.maxCrawl then
        match E.Parse u with
        | none => .ok pool
        | some parsed =>
          if parsed.Host ≠ bl.Url.Host then .ok pool
          else
            .ok { pool with
              additionCh := pool.additionCh ++
                [{ path := parsed.Path, source := .CrawlSource, depth := bl.ReqDepth + 1 }] }
      else .ok pool

/-- The `for _, u := range bl.URLs` loop of `Pool.doCrawl`. -/
def Pool.doCrawl.loop (E : Env) (G : Globals) (held : Bool) (bl : Baseline) :
    Pool → List String → Except Stop Pool
  | pool, [] => .ok pool
  | pool, u :: rest =>
    match Pool.doCrawl.visit E G held bl pool u with
    | .error e => .error e
    | .ok pool => Pool.doCrawl.loop E G held bl pool rest

/-- The method `Pool.doCrawl` (lines 475-517). -/
def Pool.doCrawl (E : Env) (G : Globals) (held : Bool) (pool : Pool) (bl : Baseline) :
    Except Stop (Pool × Baseline) :=
  if !pool.Crawl then .ok (pool, bl)
  else
    let bl := bl.CollectURL E
    match Pool.doCrawl.loop E G held bl pool bl.URLs with
    | .error e => .error e
    | .ok pool => .ok (pool, bl)

/-- The method `Pool.doCheck` (lines 568-582). -/
def Pool.doCheck (pool : Pool) : Pool :=
  if pool.failedCount > pool.BreakThreshold then
    { pool with cancelled := true, isFailed := true }
  else if pool.Mod = .HostSpray then
    { pool with checkCh := pool.checkCh ++ [.CheckSource] }
  else if pool.Mod = .PathSpray then
    { pool with checkCh := pool.checkCh ++ [.CheckSource] }
  else pool

/-- The method `Pool.addFuzzyBaseline` (lines 588-598). `doCrawl` runs with
`pool.locker` held. -/
def Pool.addFuzzyBaseline (E : Env) (G : Globals) (pool : Pool) (bl : Baseline) :
    Except Stop (Pool × Baseline) :=
  if (pool.baselines bl.Status).isNone ∧ IntsContains G.FuzzyStatus bl.Status = true then
    let bl := bl.Collect E
    match pool.doCrawl E G true bl with
    | .error e => .error e
    | .ok (pool, bl) =>
      .ok ({ pool with baselines := Function.update pool.baselines bl.Status (some bl) }, bl)
  else .ok (pool, bl)

/-- The method `Pool.resetFailed` (lines 610-613). -/
def Pool.resetFailed (pool : Pool) : Pool :=
  { pool with failedCount := 1, failedBaselines := [] }

/-- Lines 68-97 of the worker of `NewPool`: the baseline built from the
outcome of the request, with the pre-compare, the redirect follower and the
registry update of the branch for sources other than the initial ones. -/
def Pool.worker.build (E : Env) (G : Globals) (pool : Pool) (unit : Unit) (req : Request)
    (x : Exchange) : Except Stop (Pool × Baseline) :=
  if x.reqerr ≠ none ∧ x.reqerr ≠ some .ErrBodyTooLarge then
    let pool := { pool with
      failedCount := pool.failedCount + 1
      Statistor := { pool.Statistor with FailedNumber := pool.Statistor.FailedNumber + 1 } }
    let bl : Baseline :=
      { UrlString := pool.BaseURL ++ unit.path
        IsValid := false
        ErrString := match x.reqerr with
          | some e => e.Error
          | none => ""
        Reason := ErrorType.ErrRequestFailed.Error }
    .ok ({ pool with failedBaselines := pool.failedBaselines ++ [bl] }, bl)
  else if unit.source.le3 = true ∨ unit.source = .CrawlSource then
    .ok (pool, E.NewBaseline req x.resp)
  else if pool.MatchExpr ≠ none then
    .ok (pool, E.NewBaseline req x.resp)
  else
    match pool.PreCompare G x.resp with
    | .error e => .error e
    | .ok (some err) => .ok (pool, E.NewInvalidBaseline req x.resp err.Error)
    | .ok none =>
      let bl := E.NewBaseline req x.resp
      let redirected : Except Stop (Pool × Baseline) :=
        if bl.RedirectURL ≠ "" then
          let bl :=
            if bl.RedirectURL ≠ "" ∧ HasPrefix bl.RedirectURL "http" = false then
              { bl with RedirectURL := pool.BaseURL ++ ("/" ++ TrimLeftSlash bl.RedirectURL) }
            else bl
          match pool.doRedirect E G bl unit.depth with
          | .error e => .error e
          | .ok pool => .ok (pool, bl)
        else .ok (pool, bl)
      match redirected with
      | .error e => .error e
      | .ok (pool, bl) => pool.addFuzzyBaseline E G bl

/-- Lines 99-104 of the worker: the fields set on the baseline before it is
routed by source. -/
def Pool.worker.stamp (E : Env) (unit : Unit) (x : Exchange) (bl : Baseline) : Baseline :=
  let bl := if bl.BodyLength > E.DefaultMaxBodySize then { bl with ExceedLength := true } else bl
  { bl with Source := some unit.source, ReqDepth := unit.depth, Spended := x.spended }

/-- Lines 105-152 of the worker: the `switch unit.source` that routes the
baseline. -/
def Pool.worker.route (E : Env) (G : Globals) (pool : Pool) (unit : Unit) (bl : Baseline) :
    Except Stop Pool :=
  match unit.source with
  | .InitRandomSource =>
    let bl := bl.Collect E
    let pool := { pool with random := some bl }
    match pool.addFuzzyBaseline E G bl with
    | .error e => .error e
    | .ok (pool, _) => .ok pool
  | .InitIndexSource =>
    let bl := bl.Collect E
    let pool := { pool with index := some bl }
    match pool.doCrawl E G false bl with
    | .error e => .error e
    | .ok (pool, _) => .ok pool
  | .CheckSource =>
    if bl.ErrString ≠ "" then .ok pool
    else
      match pool.random with
      | none => .error .nilDeref
      | some random =>
        let i := E.Compare random bl
        if i < 1 then
          if i = 0 then .ok pool
          else
            .ok { pool with
              failedCount := pool.failedCount + 2
              failedBaselines := pool.failedBaselines ++ [bl] }
        else .ok pool.resetFailed
  | .WordSource =>
    let pool := { pool with tempCh := pool.tempCh ++ [bl], reqCount := pool.reqCount + 1 }
    if pool.CheckPeriod = 0 then .error .divByZero
    else if pool.reqCount.tmod pool.CheckPeriod = 0 then
      .ok (Pool.doCheck { pool with reqCount := pool.reqCount + 1 })
    else if pool.ErrPeriod = 0 then .error .divByZero
    else if pool.failedCount.tmod pool.ErrPeriod = 0 then
      .ok (Pool.doCheck { pool with failedCount := pool.failedCount + 1 })
    else .ok pool
  | .RedirectSource =>
    .ok { pool with tempCh := pool.tempCh ++ [{ bl with FrontURL := unit.frontUrl }] }
  | .CrawlSource => .ok { pool with tempCh := pool.tempCh ++ [bl] }
  | .ActiveSource => .ok { pool with tempCh := pool.tempCh ++ [bl] }
  | .RuleSource => .ok { pool with tempCh := pool.tempCh ++ [bl] }
  | .BakSource => .ok { pool with tempCh := pool.tempCh ++ [bl] }

/-- The worker function of `NewPool` (lines 50-154), run for one unit on the
outcome of its request. -/
def Pool.worker (E : Env) (G : Globals) (pool : Pool) (unit : Unit) (x : Exchange) :
    Except Stop Pool :=
  let pool := { pool with
    Statistor := { pool.Statistor with ReqTotal := pool.Statistor.ReqTotal + 1 } }
  match x.req with
  | none => .ok pool
  | some req =>
    match Pool.worker.build E G pool unit req x with
    | .error e => .error e
    | .ok (pool, bl) => Pool.worker.route E G pool unit (Pool.worker.stamp E unit x bl)

/-- Lines 166-180 of the classification goroutine: the variable bag, `nil`
when no expression is configured; a missing registry entry is replaced by the
empty baseline. -/
def Pool.params (G : Globals) (pool : Pool) (bl : Baseline) : Option Params :=
  if pool.MatchExpr ≠ none ∨ pool.FilterExpr ≠ none ∨ pool.RecuExpr ≠ none then
    some
      { index := pool.index
        random := pool.random
        current := bl
        bl := G.FuzzyStatus.map (fun status =>
          match pool.baselines status with
          | some b => (status, b)
          | none => (status, {})) }
  else none

/-- An environment whose `Compare` always answers 1. -/
def sampleEnvCompareOne : Env :=
  { sampleEnv with Compare := fun _ _ => 1 }

/-- A pool that has learned a 404 random baseline and has already counted
failures: `failedCount` is 5 and one failed baseline is recorded. -/
def sampleCheckPool : Pool :=
  { NewPool { CheckPeriod := 200, ErrPeriod := 10, BreakThreshold := 20 } with
    random := some { Status := 404, Body := "Not Found", IsValid := true }
    failedCount := 5
    failedBaselines := [{ UrlString := "http://t/x", ErrString := "timeout" }] }

/-- The answer to a liveness probe: a 404 page, no transport error. -/
def sampleCheckExchange : Exchange :=
  { req := some { URI := "/AbCdEfGhIjKlMnO", Host := "t" }
    resp := { StatusCode := 404, GetHeader := fun h => if h = "body" then "Not Found" else "" } }

/-- The worker run on a sequence of units, one after the other, each with the
outcome of its request. -/
def Pool.invokeAll (E : Env) (G : Globals) : Pool → List (Unit × Exchange) → Except Stop Pool
  | pool, [] => .ok pool
  | pool, (unit, x) :: rest =>
    match pool.worker E G unit x with
    | .error e => .error e
    | .ok pool => Pool.invokeAll E G pool rest

/-- The request was built and `client.Do` returned an error other than
`fasthttp.ErrBodyTooLarge` (the condition of line 69). -/
def Exchange.transportFailed (x : Exchange) : Prop :=
  x.req ≠ none ∧ x.reqerr ≠ none ∧ x.reqerr ≠ some .ErrBodyTooLarge

instance (x : Exchange) : Decidable x.transportFailed := by
  unfold Exchange.transportFailed
  infer_instance

/-- A WordSource request that timed out. -/
def sampleFailedWord : Unit × Exchange :=
  (newUnit "admin" .WordSource,
    { resp := { StatusCode := 0, GetHeader := fun _ => "" }, reqerr := some (.other "timeout") })

/-- A pool on `http://t` with the crawler enabled and the index learned. -/
def sampleCrawlPool : Pool :=
  { NewPool { BaseURL := "http://t", Crawl := true, CheckPeriod := 200, ErrPeriod := 10,
              BreakThreshold := 20 } with
    index := some { Url := { Scheme := "http", Host := "t", Path := "/" }, Status := 200,
                    IsValid := true }
    random := some { Status := 404, Body := "Not Found", IsValid := true } }

/-- A valid page of host `t` whose body links to another host and to a page of
its own host. -/
def sampleCrawlPage : Baseline :=
  { Url := { Scheme := "http", Host := "t", Path := "/admin" }, UrlString := "http://t/admin",
    Path := "/admin", Status := 200, IsValid := true, ReqDepth := 2,
    Body := "see http://other.example/foo and http://t/login" }

/-- A sequence of `addFuzzyBaseline` calls on a pool, one after the other. -/
def Pool.addFuzzyBaselines (E : Env) (G : Globals) : Pool → List Baseline → Except Stop Pool
  | pool, [] => .ok pool
  | pool, bl :: rest =>
    match pool.addFuzzyBaseline E G bl with
    | .error e => .error e
    | .ok (pool, _) => Pool.addFuzzyBaselines E G pool rest

/-- The baseline as `addFuzzyBaseline` stores it: collected, and with its URLs
extracted when the crawler is enabled. -/
def Baseline.stored (E : Env) (crawl : Bool) (bl : Baseline) : Baseline :=
  if crawl = true then (bl.Collect E).CollectURL E else bl.Collect E

/-- The first occurrence of `old` in a character list replaced by `new`
(`strings.Replace` with a count of 1, on characters). -/
def replaceFirst (old new : List Char) : List Char → List Char
  | [] => if old = [] then new else []
  | c :: cs =>
    if old.isPrefixOf (c :: cs) = true then new ++ (c :: cs).drop old.length
    else c :: replaceFirst old new cs

/-- The library call `strings.Replace(s, old, new, 1)`. -/
def StringsReplace1 (s old new : String) : String :=
  String.mk (replaceFirst old.toList new.toList s.toList)

/-- How `Pool.Init` returns: `nil`, or the error built from the index or from
the random baseline. -/
inductive InitError
  | indexFailed
  | randomFailed
  deriving DecidableEq, Repr

/-- Lines 273-281 of `Pool.Init`: the protocol upgrade of the base URL. -/
def Pool.Init.upgrade (E : Env) (pool : Pool) (random : Baseline) : Pool :=
  if random.RedirectURL ≠ "" then
    match E.Parse random.RedirectURL with
    | none => pool
    | some rurl =>
      if E.Hostname rurl = E.Hostname random.Url ∧ random.Url.Scheme = "http" ∧
          rurl.Scheme = "https" then
        { pool with BaseURL := StringsReplace1 pool.BaseURL "http" "https" }
      else pool
  else pool

/-- The method `Pool.Init` (lines 251-284). `randPath` is the value of
`pkg.RandPath()`, `xIndex` and `xRandom` are the outcomes of the two probes,
each run by the worker before `initwg.Wait()` returns; a worker that leaves
without `initwg.Done()` (the request could not be built) blocks the wait for
ever. -/
def Pool.Init (E : Env) (G : Globals) (pool : Pool) (randPath : String)
    (xIndex xRandom : Exchange) : Except Stop (Pool × Option InitError) :=
  if xIndex.req = none then .error .deadlock
  else
    match pool.worker E G (newUnit "/" .InitIndexSource) xIndex with
    | .error e => .error e
    | .ok pool =>
      match pool.index with
      | none => .error .nilDeref
      | some index =>
        if index.ErrString ≠ "" then .ok (pool, some .indexFailed)
        else
          let pool :=
            if index.Status = 200 ∨ index.Status.tdiv 100 = 3 then
              { pool with OutputCh := pool.OutputCh ++ [index] }
            else pool
          if xRandom.req = none then .error .deadlock
          else
            match pool.worker E G (newUnit randPath .InitRandomSource) xRandom with
            | .error e => .error e
            | .ok pool =>
              match pool.random with
              | none => .error .nilDeref
              | some random =>
                if random.ErrString ≠ "" then .ok (pool, some .randomFailed)
                else .ok (Pool.Init.upgrade E pool random, none)

/-- A fresh pool on `http://t`, crawler off. -/
def sampleInitPool : Pool :=
  NewPool { BaseURL := "http://t", CheckPeriod := 200, ErrPeriod := 10, BreakThreshold := 20 }

/-- The answer to the index probe: a status-200 page. -/
def sampleIndexExchange : Exchange :=
  { req := some { URI := "/", Host := "t" }
    resp := { StatusCode := 200, GetHeader := fun h => if h = "body" then "home" else "" } }

/-- The answer to the random probe: a redirect to the https site. -/
def sampleRandomExchange : Exchange :=
  { req := some { URI := "/AbCdEfGhIjKlMnO", Host := "t" }
    resp := { StatusCode := 302
              GetHeader := fun h => if h = "Location" then "https://t/AbCdEfGhIjKlMnO" else "" } }

/-! ## `NewBaseline` of `internal/baseline.go` -/

/-- The body of a `net/http` response as a reader: the bytes it delivers
before it ends, and the error it ends with when that is not end-of-stream. -/
structure BodyReader where
  bytes : List UInt8
  fault : Option String := none

/-- The errors `io.ReadFull` returns. -/
inductive ReadError
  | EOF
  | ErrUnexpectedEOF
  | other (msg : String)
  deriving DecidableEq

/-- The library function `io.ReadFull(r, buf)` on a zeroed buffer of `size`
bytes: the buffer after the call, the count `n` and the error. It reads
exactly `size` bytes when the reader has them; otherwise it copies what there
is and reports `EOF` when nothing was read, `ErrUnexpectedEOF` when the
stream ended early, or the error of the reader. -/
def ReadFull (r : BodyReader) (size : Nat) : List UInt8 × Nat × Option ReadError :=
  if size ≤ r.bytes.length then (r.bytes.take size, size, none)
  else
    (r.bytes ++ List.replicate (size - r.bytes.length) 0, r.bytes.length,
      some (match r.fault with
        | some msg => .other msg
        | none => if r.bytes.length = 0 then .EOF else .ErrUnexpectedEOF))

/-- The parts of `*http.Response` that `NewBaseline` reads; `Header` lists
the map in the order the `range` visits it, `Location` is `none` when
`resp.Location()` returns an error. -/
structure HttpResponse where
  ContentLength : Int
  StatusCode : Int
  Header : List (String × List String) := []
  Location : Option URL := none
  Body : BodyReader

/-- Collaborators of `internal/baseline.go`. -/
structure BaselineEnv where
  /-- `(*url.URL).String`. -/
  URLString : URL → String
  /-- `parsers.Md5Hash`, `parsers.Mmh3Hash32`, `pkg.Simhash`. -/
  Md5Hash : List UInt8 → String
  Mmh3Hash32 : List UInt8 → String
  Simhash : List UInt8 → String
  /-- `strings.Contains(string(body), s)`. -/
  Contains : List UInt8 → String → Bool
  /-- `pkg.Extractors.Extract`, `pkg.FingerDetect`. -/
  Extract : String → List String
  FingerDetect : String → List String

/-- Lines 24-34 of `NewBaseline`: the header block `K: V\r\n...`. -/
def NewBaseline.header (resp : HttpResponse) : String :=
  String.join (resp.Header.map (fun kv =>
    String.join (kv.2.map (fun i => kv.1 ++ ": " ++ i ++ "\r\n"))))

/-- Lines 41-51 of `NewBaseline`: the body read into a buffer of 20480
bytes. -/
def NewBaseline.readBody (bl : baseline) (resp : HttpResponse) : baseline :=
  if bl.BodyLength > 0 then
    match ReadFull resp.Body 20480 with
    | (body, _, none) => { bl with Body := body }
    | (body, n, some .ErrUnexpectedEOF) => { bl with Body := body.take n }
    | (_, _, some _) => bl
  else bl

/-- Lines 16-39 of `NewBaseline`: the record with its header block and its
redirect target, before the body is read. -/
def NewBaseline.start (E : BaselineEnv) (u : URL) (resp : HttpResponse) : baseline :=
  let bl : baseline :=
    { Url := u
      UrlString := E.URLString u
      BodyLength := resp.ContentLength
      Status := resp.StatusCode
      IsValid := true }
  let bl := { bl with
    Header := NewBaseline.header resp
    HeaderLength := (NewBaseline.header resp).utf8ByteSize }
  match resp.Location with
  | some redirectURL => { bl with RedirectURL := E.URLString redirectURL }
  | none => bl

/-- Lines 52-60 of `NewBaseline`: the fingerprints of a body that is not
empty; `bl.UrlString[1:]` is out of range for an empty URL string. -/
def NewBaseline.fingerprint (E : BaselineEnv) (bl : baseline) : Except Stop baseline :=
  if bl.Body.length > 0 then
    let bl := { bl with
      Md5 := E.Md5Hash bl.Body
      Mmh3 := E.Mmh3Hash32 bl.Body
      Simhash := E.Simhash bl.Body }
    if bl.UrlString = "" then .error .sliceBounds
    else if E.Contains bl.Body (bl.UrlString.drop 1) = true then
      .ok { bl with IsDynamicUrl := true }
    else .ok bl
  else .ok bl

/-- The function `NewBaseline` of `internal/baseline.go` (lines 15-67). -/
def NewBaseline (E : BaselineEnv) (u : URL) (resp : HttpResponse) : Except Stop baseline :=
  let bl := NewBaseline.start E u resp
  let bl := NewBaseline.readBody bl resp
  match NewBaseline.fingerprint E bl with
  | .error e => .error e
  | .ok bl =>
    .ok { bl with
      Extracteds := E.Extract bl.Response
      Frameworks := E.FingerDetect bl.Response }

/-- Collaborators for examples. -/
def sampleBaselineEnv : BaselineEnv :=
  { URLString := fun u => u.Scheme ++ "://" ++ u.Host ++ u.Path
    Md5Hash := fun body => "md5:" ++ toString body.length
    Mmh3Hash32 := fun body => "mmh3:" ++ toString body.length
    Simhash := fun body => "sim:" ++ toString body.length
    Contains := fun _ _ => false
    Extract := fun _ => []
    FingerDetect := fun _ => [] }

/-- A chunked answer: the content length is unknown (-1) and the stream
holds the two bytes of "hi". -/
def sampleChunkedResponse : HttpResponse :=
  { ContentLength := -1, StatusCode := 200, Body := { bytes := [104, 105] } }

/-- An answer that announces its two bytes. -/
def sampleShortResponse : HttpResponse :=
  { ContentLength := 2, StatusCode := 200, Body := { bytes := [104, 105] } }

/-! ## `pkg/utils.go` -/

/-- The constant `letters` (line 32). -/
def letters : String := "abcdefghijklmnopqrstuvwxyzABCDEFGHIJKLMNOPQRSTUVWXYZ"

/-- The constant `letterIdBits` (line 38). -/
def letterIdBits : Nat := 6

/-- The constant `letterIdMask` (line 40). -/
def letterIdMask : Nat := 1 <<< letterIdBits - 1

/-- The constant `letterIdMax` (line 41). -/
def letterIdMax : Nat := 63 / letterIdBits

/-- The `for` loop of `RandPath` (lines 49-59). `src` holds the values the
following calls of `src.Int63()` return; the loop ends with `none` when it
asks for a value that `src` does not have. Each round uses up one of the
`remain` indices of the cache, so `fuel` bounds the rounds. -/
def RandPath.loop : Nat → List Nat → Nat → Nat → Nat → List Char → Option (List Char)
  | 0, _, _, _, _, _ => none
  | fuel + 1, src, i, cache, remain, b =>
    if i ≥ 1 then
      let refill : Option (Nat × Nat × List Nat) :=
        if remain = 0 then
          match src with
          | [] => none
          | v :: rest => some (v, letterIdMax, rest)
        else some (cache, remain, src)
      match refill with
      | none => none
      | some (cache, remain, src) =>
        let idx := cache &&& letterIdMask
        if idx < letters.length then
          RandPath.loop fuel src (i - 1) (cache >>> letterIdBits) (remain - 1)
            (b.set i (letters.toList.getD idx 'a'))
        else
          RandPath.loop fuel src i (cache >>> letterIdBits) (remain - 1) b
    else some b

/-- The function `RandPath` (lines 44-61) on the values of the random source;
`none` when the source has fewer values than the loop asks for. -/
def RandPath (src : List Nat) : Option String :=
  match src with
  | [] => none
  | v :: rest =>
    (RandPath.loop (letterIdMax * (rest.length + 1) + 1) rest 15 v letterIdMax
      ('/' :: List.replicate 15 (Char.ofNat 0))).map String.mk

/-- The number of indices below 52 among the first `remain` six-bit groups of
a random value, lowest group first. -/
def RandPath.usable (v : Nat) : Nat → Nat
  | 0 => 0
  | remain + 1 => (if v % 64 < 52 then 1 else 0) + RandPath.usable (v / 64) remain

/-! ## `Pool.Run` -/

/-- What the `select` of `Pool.Run` (lines 325-363) receives in one round: a
word with its `ok` flag, a source from `checkCh` together with the value
`RandHost()` or `RandPath()` returns for it, a unit from `additionCh` with
its `ok` flag, or one of the three signals that end the loop. -/
inductive Run.Event
  | word (u : String) (ok : Bool)
  | check (source : sourceType) (rand : String)
  | addition (unit : Unit) (ok : Bool)
  | closeCh
  | ctxDone
  | poolCtxDone

/-- One round of the loop of `Pool.Run` (lines 324-364): the pool after the
round, the unit handed to `reqPool.Invoke` if any, and whether the round
leaves the loop. -/
def Pool.Run.select (offset limit : Int) (pool : Pool) : Run.Event → Pool × Option Unit × Bool
  | .word u ok =>
    if ok = false then (pool, none, false)
    else
      let pool := { pool with
        Statistor := { pool.Statistor with End := pool.Statistor.End + 1 } }
      if pool.reqCount < offset then ({ pool with reqCount := pool.reqCount + 1 }, none, false)
      else if pool.Statistor.End > limit then (pool, none, false)
      else if u = "" then (pool, none, false)
      else (pool, some (newUnit u .WordSource), false)
  | .check source rand =>
    let pool := { pool with
      Statistor := { pool.Statistor with CheckNumber := pool.Statistor.CheckNumber + 1 } }
    if pool.Mod = .HostSpray then (pool, some (newUnit rand source), false)
    else if pool.Mod = .PathSpray then (pool, some (newUnit rand source), false)
    else (pool, none, false)
  | .addition unit ok =>
    if ok = false then (pool, none, false)
    else (pool, some unit, false)
  | .closeCh => (pool, none, true)
  | .ctxDone => (pool, none, true)
  | .poolCtxDone => (pool, none, true)

/-- The pool at work during `Pool.Run`: the units handed to `reqPool.Invoke`
that no worker has run yet, all units handed over so far, and whether the
loop has been left. -/
structure Run.State where
  pool : Pool
  waiting : List Unit := []
  invoked : List Unit := []
  stopped : Bool := false

/-- One step of the pool at work: a round of the `select`, or a worker of
`reqPool` running the `k`-th waiting unit on the outcome `x` of its
request. -/
inductive Run.Step
  | select (ev : Run.Event)
  | work (k : Nat) (x : Exchange)

/-- One step of the pool at work. After `break Loop` the `select` receives
nothing more; a worker step for a place where no unit waits does nothing. -/
def Pool.Run.step (E : Env) (G : Globals) (offset limit : Int) (st : Run.State) :
    Run.Step → Except Stop Run.State
  | .select ev =>
    if st.stopped = true then .ok st
    else
      match Pool.Run.select offset limit st.pool ev with
      | (pool, some unit, stop) =>
        .ok { st with
          pool := pool
          waiting := st.waiting ++ [unit]
          invoked := st.invoked ++ [unit]
          stopped := stop }
      | (pool, none, stop) => .ok { st with pool := pool, stopped := stop }
  | .work k x =>
    match st.waiting[k]? with
    | none => .ok st
    | some unit =>
      match st.pool.worker E G unit x with
      | .error e => .error e
      | .ok pool => .ok { st with pool := pool, waiting := st.waiting.eraseIdx k }

/-- A sequence of steps of the pool at work. -/
def Pool.Run.steps (E : Env) (G : Globals) (offset limit : Int) :
    Run.State → List Run.Step → Except Stop Run.State
  | st, [] => .ok st
  | st, s :: rest =>
    match Pool.Run.step E G offset limit st s with
    | .error e => .error e
    | .ok st => Pool.Run.steps E G offset limit st rest

/-- The words that the word rounds of a sequence of steps offer to the
`select`, in order; as long as the loop is not left these are the words it
reads. -/
def Run.wordsRead : List Run.Step → List String
  | [] => []
  | .select (.word u true) :: rest => u :: Run.wordsRead rest
  | _ :: rest => Run.wordsRead rest

/-- A step as the pool produces it while the loop runs: `checkCh` carries the
`CheckSource` that `doCheck` sends, `additionCh` the units of the expanders,
none of them a WordSource unit, and no signal ends the loop. -/
def Run.Step.admissible : Run.Step → Prop
  | .select (.check source _) => source ≠ .WordSource
  | .select (.addition unit _) => unit.source ≠ .WordSource
  | .select .closeCh => False
  | .select .ctxDone => False
  | .select .poolCtxDone => False
  | _ => True

/-- The WordSource units the claim expects for the words that follow the
first `k` words of the stream: word number i is invoked when it is not empty
and max(offset, 1) ≤ i and `end0 + i ≤ limit`, where `end0` is the value of
`Statistor.End` before the first word. -/
def Run.expected (offset limit end0 : Int) : Nat → List String → List Unit
  | _, [] => []
  | k, u :: rest =>
    (if max offset 1 ≤ ((k + 1 : Nat) : Int) ∧ end0 + ((k + 1 : Nat) : Int) ≤ limit ∧ u ≠ "" then
        [newUnit u .WordSource]
      else []) ++ Run.expected offset limit end0 (k + 1) rest

/-- The WordSource units the dispatcher is to invoke for the words
`w_1..w_n` it reads, in the words of the claim: one for each non-empty word
`w_i` with max(offset, 1) ≤ i ≤ limit, in stream order. -/
def Run.claimed (offset limit : Int) (words : List String) : List Unit :=
  (words.enum.filter (fun p =>
      decide (max offset 1 ≤ ((p.1 + 1 : Nat) : Int) ∧ ((p.1 + 1 : Nat) : Int) ≤ limit ∧
        p.2 ≠ ""))).map
    (fun p => newUnit p.2 .WordSource)

/-- The three cases of the `select` of `Pool.Run` that run `break Loop`
(lines 357-362). -/
def Run.Event.breaks : Run.Event → Bool
  | .closeCh => true
  | .ctxDone => true
  | .poolCtxDone => true
  | _ => false

/-- A run on the word stream a, b, c, d in which the `select` receives from
`closeCh` after the second word: the goroutine of lines 316-321 offers
`closeCh` whenever the wait group is at zero, as it is while words are
skipped. -/
def sampleCloseSteps : List Run.Step :=
  [.select (.word "a" true), .select (.word "b" true), .select .closeCh,
   .select (.word "c" true), .select (.word "d" true)]

/-- A run of the pool at work: five words are read, a liveness check is
requested after the second, and a crawled link arrives after the third. -/
def sampleRunSteps : List Run.Step :=
  [.select (.word "a" true), .select (.word "b" true), .select (.check .CheckSource "/AbCdEfGhIjKlMnO"),
   .select (.word "" true), .select (.addition (newUnit "/login" .CrawlSource) true),
   .select (.word "c" true), .select (.word "d" true)]

end Spray

/-! ## Theorems -/

namespace Spray

theorem IntsContains_iff (l : List Int) (s : Int) : IntsContains l s = true ↔ s ∈ l := by
  simp [IntsContains]

/-- C1: PreCompare applies, in this order, the white rule, the same-status
rule, the black rule, the WAF rule and the redirect rule; a white status is
accepted whatever the other tables hold, and status 493 against a random
baseline of status 493 gives ErrSameStatus, not ErrWaf. -/
theorem C1_PreCompare_rule_order :
    (∀ (pool : Pool) (r : Baseline) (s : Int) (hdr : String → String),
      Pool.PreCompare Globals.init { pool with random := some r }
          { StatusCode := s, GetHeader := hdr } =
        .ok (if s ∈ [200] then none
          else if r.Status ≠ 200 ∧ s = r.Status then some ErrorType.ErrSameStatus
          else if s ∈ [400, 410] then some ErrorType.ErrBadStatus
          else if s ∈ [493, 418, 1020, 406] then some ErrorType.ErrWaf
          else if hdr "Location" = r.RedirectURL then some ErrorType.ErrRedirect
          else none)) ∧
    (∀ (G : Globals) (pool : Pool) (resp : Response),
      resp.StatusCode ∈ G.WhiteStatus → Pool.PreCompare G pool resp = .ok none) ∧
    (∀ (pool : Pool) (r : Baseline) (hdr : String → String), r.Status = 493 →
      Pool.PreCompare Globals.init { pool with random := some r }
          { StatusCode := 493, GetHeader := hdr } = .ok (some ErrorType.ErrSameStatus)) := by
  refine ⟨?_, ?_, ?_⟩
  · intro pool r s hdr
    simp only [Pool.PreCompare, Pool.checkRedirect, Globals.init, IntsContains, List.any_cons,
      List.any_nil, Bool.or_false, beq_iff_eq, Bool.or_eq_true, List.mem_cons, List.mem_singleton,
      List.not_mem_nil, or_false, Bool.and_eq_true, decide_eq_true_eq]
    split_ifs <;> first | rfl | (exfalso; omega)
  · intro G pool resp h
    have : IntsContains G.WhiteStatus resp.StatusCode = true := (IntsContains_iff _ _).2 h
    simp [Pool.PreCompare, this]
  · intro pool r hdr h
    simp [Pool.PreCompare, Globals.init, IntsContains, h]

theorem BaseCompare_base_eq (pool : Pool) (random index B : Baseline) :
    Pool.BaseCompare.base { pool with random := some random, index := some index } B =
      .ok (match pool.baselines B.Status with
        | some entry => some entry
        | none =>
          if random.Status = B.Status then some random
          else if index.Status = B.Status then some index
          else none) := by
  simp only [Pool.BaseCompare.base]
  cases pool.baselines B.Status with
  | some entry => rfl
  | none =>
    by_cases h1 : random.Status = B.Status
    · simp [h1]
    · by_cases h2 : index.Status = B.Status <;> simp [h1, h2]

/-- C2: the learned baseline BaseCompare compares against is the registry
entry under B.Status when there is one, otherwise random when its status is
B.Status, otherwise index when its status is B.Status, otherwise none. -/
theorem C2_BaseCompare_base_selection (pool : Pool) (random index B : Baseline) :
    Pool.BaseCompare.base { pool with random := some random, index := some index } B =
      .ok (match pool.baselines B.Status with
        | some entry => some entry
        | none =>
          if random.Status = B.Status then some random
          else if index.Status = B.Status then some index
          else none) :=
  BaseCompare_base_eq pool random index B

/-- C3: with random and index learned, BaseCompare returns true exactly when B
is valid and either no learned baseline is picked for its status or the picked
baseline L has Compare(L, B) different from 1 and not (Compare(L, B) = 0 and
FuzzyCompare(L, B) on the collected B); a Compare of 1 sets the reason
"compare failed"; an invalid B is returned unchanged with verdict false; a
valid status-200 B with no registry entry for 200 and index and random of
another status is accepted. -/
theorem C3_BaseCompare_verdict (E : Env) (pool : Pool) (random index B : Baseline) :
    (∃ v p b, Pool.BaseCompare E { pool with random := some random, index := some index } B =
        .ok (v, p, b) ∧
      (v = true ↔ B.IsValid = true ∧
        (Pool.BaseCompare.base { pool with random := some random, index := some index } B =
            .ok none ∨
          ∃ L, Pool.BaseCompare.base { pool with random := some random, index := some index } B =
              .ok (some L) ∧
            E.Compare L B ≠ 1 ∧
            ¬ (E.Compare L B = 0 ∧ E.FuzzyCompare L (B.Collect E) = true))) ∧
      (B.IsValid = true →
        (∃ L, Pool.BaseCompare.base { pool with random := some random, index := some index } B =
            .ok (some L) ∧ E.Compare L B = 1) →
        v = false ∧ b.Reason = "compare failed") ∧
      (B.IsValid = false → v = false ∧ b = B)) ∧
    (B.IsValid = true → B.Status = 200 → pool.baselines 200 = none →
      index.Status ≠ 200 → random.Status ≠ 200 →
      Pool.BaseCompare E { pool with random := some random, index := some index } B =
        .ok (true, { pool with random := some random, index := some index }, B.Collect E)) := by
  constructor
  · obtain ⟨x, hx⟩ : ∃ x, Pool.BaseCompare.base
        { pool with random := some random, index := some index } B = .ok x :=
      ⟨_, BaseCompare_base_eq pool random index B⟩
    generalize ({ pool with random := some random, index := some index } : Pool) = p0 at hx ⊢
    cases hv : B.IsValid with
    | false =>
      refine ⟨false, p0, B, ?_, ?_, ?_, ?_⟩
      · simp [Pool.BaseCompare, hv]
      · simp
      · simp
      · simp
    | true =>
      cases x with
      | none =>
        refine ⟨true, p0, B.Collect E, ?_, ?_, ?_, ?_⟩
        · simp [Pool.BaseCompare, hv, hx]
        · simp [hx]
        · simp [hx]
        · simp
      | some L =>
        by_cases h1 : E.Compare L B = 1
        · refine ⟨false, p0, { B with Reason := ErrorType.ErrCompareFailed.Error }, ?_, ?_, ?_, ?_⟩
          · simp [Pool.BaseCompare, hv, hx, h1]
          · simp [hx, h1]
          · intro _ _
            exact ⟨rfl, rfl⟩
          · simp
        · by_cases h2 : E.Compare L B = 0 ∧ E.FuzzyCompare L (B.Collect E) = true
          · have hb : Pool.BaseCompare E p0 B = .ok (false,
                (Pool.putToFuzzy { p0 with Statistor :=
                  { p0.Statistor with FuzzyNumber := p0.Statistor.FuzzyNumber + 1 } }
                  { B.Collect E with Reason := ErrorType.ErrFuzzyCompareFailed.Error }).1,
                (Pool.putToFuzzy { p0 with Statistor :=
                  { p0.Statistor with FuzzyNumber := p0.Statistor.FuzzyNumber + 1 } }
                  { B.Collect E with Reason := ErrorType.ErrFuzzyCompareFailed.Error }).2) := by
              simp only [Pool.BaseCompare, hv, hx, h1, h2]
              simp
            refine ⟨false, _, _, hb, ?_, ?_, ?_⟩
            · simp [hx, h2]
            · rintro _ ⟨L', hL', h⟩
              simp only [hx, Except.ok.injEq, Option.some.injEq] at hL'
              subst hL'
              exact absurd h h1
            · simp
          · refine ⟨true, p0, B.Collect E, ?_, ?_, ?_, ?_⟩
            · simp only [Pool.BaseCompare, hv, hx, h1, h2]
              simp
            · simp only [hx, Except.ok.injEq, Option.some.injEq, exists_eq_left', true_and,
                reduceCtorEq, false_or, true_iff]
              exact ⟨h1, h2⟩
            · rintro _ ⟨L', hL', h⟩
              simp only [hx, Except.ok.injEq, Option.some.injEq] at hL'
              subst hL'
              exact absurd h h1
            · simp
  · intro hv hs hreg hi hr
    have hx := BaseCompare_base_eq pool random index B
    rw [hs, hreg] at hx
    simp only [hi, hr, if_false] at hx
    simp [Pool.BaseCompare, hv, hx]

/-- C1 (instance): status 200 is accepted by PreCompare under tables that
also list 200 as a black and a WAF status, with no random baseline learned. -/
theorem C1_PreCompare_rule_order_witness :
    (200 : Int) ∈ [200] ∧
    Pool.PreCompare { Globals.init with BlackStatus := [200, 400], WAFStatus := [200] }
        (NewPool {}) { StatusCode := 200, GetHeader := fun _ => "" } = .ok none :=
  ⟨by decide,
    C1_PreCompare_rule_order.2.1 { Globals.init with BlackStatus := [200, 400], WAFStatus := [200] }
      (NewPool {}) { StatusCode := 200, GetHeader := fun _ => "" } (by decide)⟩

/-- C3 (instance): the "normal 404" scenario; random is a 404, index a 302,
and a valid status-200 baseline is accepted. -/
theorem C3_BaseCompare_verdict_witness :
    (({ Status := 200, IsValid := true, Body := "Welcome admin" } : Baseline).IsValid = true ∧
      ({ Status := 200, IsValid := true, Body := "Welcome admin" } : Baseline).Status = 200 ∧
      (NewPool {}).baselines 200 = none ∧
      ({ Status := 302 } : Baseline).Status ≠ 200 ∧
      ({ Status := 404, Body := "Not Found" } : Baseline).Status ≠ 200) ∧
    Pool.BaseCompare sampleEnv
        { NewPool {} with
          random := some { Status := 404, Body := "Not Found" }, index := some { Status := 302 } }
        { Status := 200, IsValid := true, Body := "Welcome admin" } =
      .ok (true,
        { NewPool {} with
          random := some { Status := 404, Body := "Not Found" }, index := some { Status := 302 } },
        Baseline.Collect sampleEnv { Status := 200, IsValid := true, Body := "Welcome admin" }) :=
  ⟨⟨rfl, rfl, rfl, by decide, by decide⟩,
    (C3_BaseCompare_verdict sampleEnv (NewPool {}) { Status := 404, Body := "Not Found" }
      { Status := 302 } { Status := 200, IsValid := true, Body := "Welcome admin" }).2
      rfl rfl rfl (by decide) (by decide)⟩

/-- C4: the exact compare of `baseline.go` reports equality exactly when the
MD5 or the redirect URL of the two baselines agree and reports a difference in
every other case; it is reflexive and symmetric. -/
theorem C4_Compare_exact :
    (∀ A B : baseline, A.Compare B = true ↔ (A.Md5 = B.Md5 ∨ A.RedirectURL = B.RedirectURL)) ∧
    (∀ A B : baseline, A.Compare B = false ↔ ¬ (A.Md5 = B.Md5 ∨ A.RedirectURL = B.RedirectURL)) ∧
    (∀ A : baseline, A.Compare A = true) ∧
    (∀ A B : baseline, A.Compare B = B.Compare A) := by
  have key : ∀ A B : baseline,
      A.Compare B = true ↔ (A.Md5 = B.Md5 ∨ A.RedirectURL = B.RedirectURL) := by
    intro A B
    unfold baseline.Compare
    by_cases h1 : A.Md5 = B.Md5
    · simp [h1]
    · by_cases h2 : A.RedirectURL = B.RedirectURL <;> simp [h1, h2]
  refine ⟨key, ?_, ?_, ?_⟩
  · intro A B
    rw [← key A B]
    simp
  · intro A
    exact (key A A).2 (Or.inl rfl)
  · intro A B
    have hA := key A B
    have hB := key B A
    cases hab : A.Compare B with
    | true =>
      have := hA.1 hab
      exact (hB.2 (this.imp Eq.symm Eq.symm)).symm
    | false =>
      cases hba : B.Compare A with
      | false => rfl
      | true =>
        have := hB.1 hba
        have h' := hA.2 (this.imp Eq.symm Eq.symm)
        rw [hab] at h'
        exact h'

/-- C5 (refuted as stated): on a pool with failedCount 5 and one recorded
failure, a liveness probe whose Compare against random returns 1 leaves
failedCount at 1 and the failed list empty; it is not raised to 7 and the
probe is not appended. -/
theorem C5_check_compare_one_counterexample :
    sampleEnvCompareOne.Compare { Status := 404, Body := "Not Found", IsValid := true }
        (Pool.worker.stamp sampleEnvCompareOne (newUnit "/AbCdEfGhIjKlMnO" .CheckSource)
          sampleCheckExchange
          (sampleEnvCompareOne.NewBaseline { URI := "/AbCdEfGhIjKlMnO", Host := "t" }
            sampleCheckExchange.resp)) = 1 ∧
    sampleCheckPool.failedCount = 5 ∧
    sampleCheckPool.failedBaselines.length = 1 ∧
    (Pool.worker sampleEnvCompareOne Globals.init sampleCheckPool
        (newUnit "/AbCdEfGhIjKlMnO" .CheckSource) sampleCheckExchange).toOption.map
      (fun p => (p.failedCount, p.failedBaselines.length)) = some (1, 0) := by
  refine ⟨rfl, rfl, rfl, ?_⟩
  rfl

theorem worker_check_eq (E : Env) (G : Globals) (pool : Pool) (unit : Unit) (req : Request)
    (x : Exchange) (r : Baseline)
    (hsource : unit.source = .CheckSource) (hreq : x.req = some req) (herr : x.reqerr = none)
    (hrandom : pool.random = some r) (hbl : (E.NewBaseline req x.resp).ErrString = "") :
    Pool.worker E G pool unit x =
      .ok (if E.Compare r (Pool.worker.stamp E unit x (E.NewBaseline req x.resp)) < 1 then
          if E.Compare r (Pool.worker.stamp E unit x (E.NewBaseline req x.resp)) = 0 then
            { pool with
              Statistor := { pool.Statistor with ReqTotal := pool.Statistor.ReqTotal + 1 } }
          else
            { pool with
              Statistor := { pool.Statistor with ReqTotal := pool.Statistor.ReqTotal + 1 }
              failedCount := pool.failedCount + 2
              failedBaselines := pool.failedBaselines ++
                [Pool.worker.stamp E unit x (E.NewBaseline req x.resp)] }
        else
          Pool.resetFailed { pool with
            Statistor := { pool.Statistor with ReqTotal := pool.Statistor.ReqTotal + 1 } }) := by
  have hstamp : (Pool.worker.stamp E unit x (E.NewBaseline req x.resp)).ErrString = "" := by
    unfold Pool.worker.stamp
    split_ifs <;> simpa using hbl
  have hbuild : Pool.worker.build E G
      { pool with Statistor := { pool.Statistor with ReqTotal := pool.Statistor.ReqTotal + 1 } }
      unit req x =
      .ok ({ pool with
        Statistor := { pool.Statistor with ReqTotal := pool.Statistor.ReqTotal + 1 } },
        E.NewBaseline req x.resp) := by
    simp [Pool.worker.build, herr, hsource, sourceType.le3]
  simp only [Pool.worker, hreq, hbuild]
  simp only [Pool.worker.route, hsource, hstamp, hrandom]
  by_cases h1 : E.Compare r (Pool.worker.stamp E unit x (E.NewBaseline req x.resp)) < 1
  · by_cases h0 : E.Compare r (Pool.worker.stamp E unit x (E.NewBaseline req x.resp)) = 0
    · simp [h0]
    · simp [h1, h0]
  · simp [h1]

/-- C5 (amended): for a CheckSource response without transport error, with bl
the baseline the handler compares: a negative Compare(random, bl) raises
failedCount by exactly 2 and appends bl to the failed list; a Compare of 0
leaves both unchanged; a Compare of 1 or more is the successful check, which
resets failedCount to 1 and empties the failed list. -/
theorem C5_check_handler (E : Env) (G : Globals) (pool : Pool) (unit : Unit) (req : Request)
    (x : Exchange) (r : Baseline)
    (hsource : unit.source = .CheckSource) (hreq : x.req = some req) (herr : x.reqerr = none)
    (hrandom : pool.random = some r) (hbl : (E.NewBaseline req x.resp).ErrString = "") :
    ∃ p, Pool.worker E G pool unit x = .ok p ∧
      (E.Compare r (Pool.worker.stamp E unit x (E.NewBaseline req x.resp)) < 0 →
        p.failedCount = pool.failedCount + 2 ∧
        p.failedBaselines = pool.failedBaselines ++
          [Pool.worker.stamp E unit x (E.NewBaseline req x.resp)]) ∧
      (E.Compare r (Pool.worker.stamp E unit x (E.NewBaseline req x.resp)) = 0 →
        p.failedCount = pool.failedCount ∧ p.failedBaselines = pool.failedBaselines) ∧
      (1 ≤ E.Compare r (Pool.worker.stamp E unit x (E.NewBaseline req x.resp)) →
        p.failedCount = 1 ∧ p.failedBaselines = []) := by
  refine ⟨_, worker_check_eq E G pool unit req x r hsource hreq herr hrandom hbl, ?_, ?_, ?_⟩
  · intro h
    have h1 : E.Compare r (Pool.worker.stamp E unit x (E.NewBaseline req x.resp)) < 1 := by omega
    have h0 : E.Compare r (Pool.worker.stamp E unit x (E.NewBaseline req x.resp)) ≠ 0 := by omega
    simp [h1, h0]
  · intro h
    simp [h]
  · intro h
    have h1 : ¬ E.Compare r (Pool.worker.stamp E unit x (E.NewBaseline req x.resp)) < 1 := by omega
    simp [h1, Pool.resetFailed]

/-- C5 (instance): a liveness probe answered by a page of another length than
the random baseline compares to -1; failedCount goes from 5 to 7 and the probe
is appended to the failed list. -/
theorem C5_check_handler_witness :
    ((newUnit "/AbCdEfGhIjKlMnO" .CheckSource).source = .CheckSource ∧
      sampleCheckExchange.req = some { URI := "/AbCdEfGhIjKlMnO", Host := "t" } ∧
      sampleCheckExchange.reqerr = none ∧
      { sampleCheckPool with random := some { Status := 404, Body := "gone", Md5 := "m" } }.random =
        some { Status := 404, Body := "gone", Md5 := "m" } ∧
      (sampleEnv.NewBaseline { URI := "/AbCdEfGhIjKlMnO", Host := "t" }
        sampleCheckExchange.resp).ErrString = "") ∧
    ∃ p, Pool.worker sampleEnv Globals.init
        { sampleCheckPool with random := some { Status := 404, Body := "gone", Md5 := "m" } }
        (newUnit "/AbCdEfGhIjKlMnO" .CheckSource) sampleCheckExchange = .ok p ∧
      p.failedCount = 5 + 2 ∧ p.failedBaselines.length = 2 := by
  refine ⟨⟨rfl, rfl, rfl, rfl, rfl⟩, ?_⟩
  obtain ⟨p, hp, hneg, -, -⟩ := C5_check_handler sampleEnv Globals.init
    { sampleCheckPool with random := some { Status := 404, Body := "gone", Md5 := "m" } }
    (newUnit "/AbCdEfGhIjKlMnO" .CheckSource) { URI := "/AbCdEfGhIjKlMnO", Host := "t" }
    sampleCheckExchange { Status := 404, Body := "gone", Md5 := "m" } rfl rfl rfl rfl rfl
  refine ⟨p, hp, ?_⟩
  have h := hneg (by decide)
  rw [h.1, h.2]
  exact ⟨rfl, rfl⟩

/-- C6 (refuted as stated): with CheckPeriod 200, ErrPeriod 10 and
BreakThreshold 5, six consecutive failed WordSource requests on a fresh pool
leave the target running (failedCount is 7, no doCheck has run); with
BreakThreshold 20 the target is already cancelled after 18 failures, not
after 21. -/
theorem C6_break_threshold_counterexample :
    (Pool.invokeAll sampleEnv Globals.init
        (NewPool { CheckPeriod := 200, ErrPeriod := 10, BreakThreshold := 5 })
        (List.replicate (5 + 1) sampleFailedWord)).toOption.map
      (fun p => (p.failedCount, p.isFailed, p.cancelled)) = some (7, false, false) ∧
    (Pool.invokeAll sampleEnv Globals.init
        (NewPool { CheckPeriod := 200, ErrPeriod := 10, BreakThreshold := 20 })
        (List.replicate 18 sampleFailedWord)).toOption.map
      (fun p => (p.failedCount, p.isFailed, p.cancelled)) = some (21, true, true) := by
  constructor
  · rfl
  · rfl

/-- One failed WordSource request: `failedCount` grows by one, `reqCount` by
one, and `doCheck` runs when the new `reqCount` is a multiple of `CheckPeriod`
or else the new `failedCount` a multiple of `ErrPeriod`. -/
theorem worker_word_failed (E : Env) (G : Globals) (pool : Pool) (unit : Unit) (x : Exchange)
    (hsource : unit.source = .WordSource) (hx : x.transportFailed)
    (hcp : pool.CheckPeriod ≠ 0) (hep : pool.ErrPeriod ≠ 0) :
    ∃ p, Pool.worker E G pool unit x = .ok p ∧
      p.CheckPeriod = pool.CheckPeriod ∧ p.ErrPeriod = pool.ErrPeriod ∧
      p.BreakThreshold = pool.BreakThreshold ∧
      (((pool.reqCount + 1).tmod pool.CheckPeriod = 0 ∧
          p.reqCount = pool.reqCount + 2 ∧ p.failedCount = pool.failedCount + 1 ∧
          p.isFailed = (pool.isFailed || decide (pool.BreakThreshold < pool.failedCount + 1)) ∧
          p.cancelled = (pool.cancelled || decide (pool.BreakThreshold < pool.failedCount + 1))) ∨
        ((pool.reqCount + 1).tmod pool.CheckPeriod ≠ 0 ∧
          (pool.failedCount + 1).tmod pool.ErrPeriod = 0 ∧
          p.reqCount = pool.reqCount + 1 ∧ p.failedCount = pool.failedCount + 2 ∧
          p.isFailed = (pool.isFailed || decide (pool.BreakThreshold < pool.failedCount + 2)) ∧
          p.cancelled = (pool.cancelled || decide (pool.BreakThreshold < pool.failedCount + 2))) ∨
        ((pool.reqCount + 1).tmod pool.CheckPeriod ≠ 0 ∧
          (pool.failedCount + 1).tmod pool.ErrPeriod ≠ 0 ∧
          p.reqCount = pool.reqCount + 1 ∧ p.failedCount = pool.failedCount + 1 ∧
          p.isFailed = pool.isFailed ∧ p.cancelled = pool.cancelled)) := by
  obtain ⟨hreq, he1, he2⟩ := hx
  obtain ⟨req, hreq⟩ := Option.ne_none_iff_exists'.1 hreq
  simp only [Pool.worker, hreq, Pool.worker.build, he1, he2, ne_eq, not_false_eq_true, and_self,
    if_true, Pool.worker.route, hsource, hcp, if_false]
  by_cases hA : (pool.reqCount + 1).tmod pool.CheckPeriod = 0
  · simp only [hA, if_true]
    refine ⟨_, rfl, ?_⟩
    unfold Pool.doCheck
    simp only
    split_ifs <;> simp_all <;> omega
  · simp only [hA, if_false, hep]
    by_cases hB : (pool.failedCount + 1).tmod pool.ErrPeriod = 0
    · simp only [hB, if_true]
      refine ⟨_, rfl, ?_⟩
      unfold Pool.doCheck
      simp only
      split_ifs <;> simp_all <;> omega
    · simp only [hB, if_false]
      refine ⟨_, rfl, ?_⟩
      simp_all

/-- Invariants of a run of failed WordSource requests, from any pool that has
seen `k` of them. -/
theorem invokeAll_word_failed (E : Env) (G : Globals) (jobs : List (Unit × Exchange))
    (hjobs : ∀ j ∈ jobs, j.1.source = .WordSource ∧ j.2.transportFailed) :
    ∀ (pool : Pool) (k : Int), pool.CheckPeriod ≠ 0 → pool.ErrPeriod ≠ 0 →
      k + 1 ≤ pool.failedCount → pool.failedCount ≤ 2 * k + 1 →
      pool.isFailed = pool.cancelled →
      (pool.isFailed = true → pool.BreakThreshold < pool.failedCount) →
      (pool.isFailed = false → ∀ m : Int, pool.ErrPeriod ∣ m → pool.BreakThreshold < m →
        2 ≤ m → pool.failedCount < m) →
      ∃ p, Pool.invokeAll E G pool jobs = .ok p ∧
        p.CheckPeriod = pool.CheckPeriod ∧ p.ErrPeriod = pool.ErrPeriod ∧
        p.BreakThreshold = pool.BreakThreshold ∧
        k + jobs.length + 1 ≤ p.failedCount ∧ p.failedCount ≤ 2 * (k + jobs.length) + 1 ∧
        p.isFailed = p.cancelled ∧
        (p.isFailed = true → pool.BreakThreshold < p.failedCount) ∧
        (p.isFailed = false → ∀ m : Int, pool.ErrPeriod ∣ m → pool.BreakThreshold < m →
          2 ≤ m → p.failedCount < m) := by
  induction jobs with
  | nil =>
    intro pool k _ _ h1 h2 h3 h4 h5
    refine ⟨pool, rfl, rfl, rfl, rfl, ?_, ?_, h3, h4, h5⟩
    · simpa using h1
    · simpa using h2
  | cons j rest ih =>
    intro pool k hcp hep h1 h2 h3 h4 h5
    obtain ⟨hsource, hfail⟩ := hjobs j (List.mem_cons_self _ _)
    obtain ⟨p1, hw, e1, e2, e3, hcases⟩ :=
      worker_word_failed E G pool j.1 j.2 hsource hfail hcp hep
    have hrest : ∀ j' ∈ rest, j'.1.source = .WordSource ∧ j'.2.transportFailed :=
      fun j' hj' => hjobs j' (List.mem_cons_of_mem _ hj')
    have hstep : k + 1 + 1 ≤ p1.failedCount ∧ p1.failedCount ≤ 2 * (k + 1) + 1 ∧
        p1.isFailed = p1.cancelled ∧
        (p1.isFailed = true → pool.BreakThreshold < p1.failedCount) ∧
        (p1.isFailed = false → ∀ m : Int, pool.ErrPeriod ∣ m → pool.BreakThreshold < m →
          2 ≤ m → p1.failedCount < m) := by
      rcases hcases with ⟨_, _, hf, hi, hc⟩ | ⟨_, _, _, hf, hi, hc⟩ | ⟨_, hB, _, hf, hi, hc⟩
      · refine ⟨by omega, by omega, by rw [hi, hc, h3], ?_, ?_⟩
        · intro ht
          rw [hi] at ht
          simp only [Bool.or_eq_true, decide_eq_true_eq] at ht
          rcases ht with ht | ht
          · have := h4 ht
            omega
          · omega
        · intro hfalse m _ hm _
          rw [hi] at hfalse
          simp only [Bool.or_eq_false_iff, decide_eq_false_iff_not] at hfalse
          omega
      · refine ⟨by omega, by omega, by rw [hi, hc, h3], ?_, ?_⟩
        · intro ht
          rw [hi] at ht
          simp only [Bool.or_eq_true, decide_eq_true_eq] at ht
          rcases ht with ht | ht
          · have := h4 ht
            omega
          · omega
        · intro hfalse m _ hm _
          rw [hi] at hfalse
          simp only [Bool.or_eq_false_iff, decide_eq_false_iff_not] at hfalse
          omega
      · refine ⟨by omega, by omega, by rw [hi, hc, h3], ?_, ?_⟩
        · intro ht
          rw [hi] at ht
          have := h4 ht
          omega
        · intro hfalse m hdvd hm h2m
          rw [hi] at hfalse
          have hlt := h5 hfalse m hdvd hm h2m
          have hne : pool.failedCount + 1 ≠ m := by
            intro heq
            apply hB
            rw [heq]
            exact Int.dvd_iff_tmod_eq_zero.1 hdvd
          omega
    obtain ⟨s1, s2, s3, s4, s5⟩ := hstep
    obtain ⟨p, hp, f1, f2, f3, f4, f5, f6, f7, f8⟩ :=
      ih hrest p1 (k + 1) (by rw [e1]; exact hcp) (by rw [e2]; exact hep) s1 s2 s3
        (by rw [e3]; exact s4) (by rw [e2, e3]; exact s5)
    refine ⟨p, ?_, by rw [f1, e1], by rw [f2, e2], by rw [f3, e3], ?_, ?_, f6, ?_, ?_⟩
    · simp only [Pool.invokeAll, hw]
      exact hp
    · simp only [List.length_cons, Nat.cast_add, Nat.cast_one]
      omega
    · simp only [List.length_cons, Nat.cast_add, Nat.cast_one]
      omega
    · rw [e3] at f7
      exact f7
    · rw [e2, e3] at f8
      exact f8

/-- C6 (amended): on a fresh pool with non-zero CheckPeriod and ErrPeriod, n
consecutive WordSource requests that fail at the transport level all return,
and leave failedCount between n+1 and 2n+1; cancel has been called exactly
when isFailed is set, and then failedCount exceeds BreakThreshold (so the
target is not cancelled while 2n+1 ≤ BreakThreshold); the target is cancelled
once n+1 has reached a multiple m ≥ 2 of ErrPeriod above BreakThreshold. -/
theorem C6_failure_controller (E : Env) (G : Globals) (config : Pool)
    (jobs : List (Unit × Exchange))
    (hjobs : ∀ j ∈ jobs, j.1.source = .WordSource ∧ j.2.transportFailed)
    (hcp : config.CheckPeriod ≠ 0) (hep : config.ErrPeriod ≠ 0) :
    ∃ p, Pool.invokeAll E G (NewPool config) jobs = .ok p ∧
      (jobs.length : Int) + 1 ≤ p.failedCount ∧ p.failedCount ≤ 2 * jobs.length + 1 ∧
      p.isFailed = p.cancelled ∧
      (p.isFailed = true → config.BreakThreshold < p.failedCount) ∧
      (2 * (jobs.length : Int) + 1 ≤ config.BreakThreshold → p.isFailed = false) ∧
      (∀ m : Int, config.ErrPeriod ∣ m → config.BreakThreshold < m → 2 ≤ m →
        m ≤ jobs.length + 1 → p.isFailed = true) := by
  obtain ⟨p, hp, -, -, -, f4, f5, f6, f7, f8⟩ :=
    invokeAll_word_failed E G jobs hjobs (NewPool config) 0 hcp hep (by simp [NewPool])
      (by simp [NewPool]) rfl (by simp [NewPool])
      (by
        intro _ m _ _ h2
        simp only [NewPool]
        omega)
  have hbt : (NewPool config).BreakThreshold = config.BreakThreshold := rfl
  have hepe : (NewPool config).ErrPeriod = config.ErrPeriod := rfl
  rw [hbt] at f7 f8
  rw [hepe] at f8
  refine ⟨p, hp, by omega, by omega, f6, f7, ?_, ?_⟩
  · intro hsmall
    cases hf : p.isFailed with
    | false => rfl
    | true =>
      have := f7 hf
      omega
  · intro m hdvd hm h2 hle
    cases hf : p.isFailed with
    | true => rfl
    | false =>
      have := f8 hf m hdvd hm h2
      omega

/-- C6 (instance): with CheckPeriod 200, ErrPeriod 10 and BreakThreshold 20,
29 consecutive failed WordSource requests have cancelled the target: 30 is a
multiple of ErrPeriod above the threshold. -/
theorem C6_failure_controller_witness :
    ((∀ j ∈ List.replicate 29 sampleFailedWord,
        j.1.source = .WordSource ∧ j.2.transportFailed) ∧
      ({ CheckPeriod := 200, ErrPeriod := 10, BreakThreshold := 20 } : Pool).CheckPeriod ≠ 0 ∧
      ({ CheckPeriod := 200, ErrPeriod := 10, BreakThreshold := 20 } : Pool).ErrPeriod ≠ 0) ∧
    ∃ p, Pool.invokeAll sampleEnv Globals.init
        (NewPool { CheckPeriod := 200, ErrPeriod := 10, BreakThreshold := 20 })
        (List.replicate 29 sampleFailedWord) = .ok p ∧
      p.isFailed = true ∧ p.cancelled = true := by
  have hjobs : ∀ j ∈ List.replicate 29 sampleFailedWord,
      j.1.source = .WordSource ∧ j.2.transportFailed := by
    intro j hj
    rw [List.eq_of_mem_replicate hj]
    exact ⟨rfl, by decide⟩
  refine ⟨⟨hjobs, by decide, by decide⟩, ?_⟩
  obtain ⟨p, hp, -, -, hc, -, -, hlive⟩ :=
    C6_failure_controller sampleEnv Globals.init
      { CheckPeriod := 200, ErrPeriod := 10, BreakThreshold := 20 }
      (List.replicate 29 sampleFailedWord) hjobs (by decide) (by decide)
  have hf : p.isFailed = true := hlive 30 (by decide) (by decide) (by decide) (by simp)
  exact ⟨p, hp, hf, by rw [← hc, hf]⟩

/-- What one round of the crawl loop adds to the addition channel: nothing,
or one CrawlSource unit of depth `ReqDepth + 1` below `maxCrawl`, built from
the resolved URL, which parses with the host of the baseline. -/
theorem doCrawl_visit_units (E : Env) (G : Globals) (held : Bool) (bl : Baseline) (pool : Pool)
    (u : String) (p : Pool) (h : Pool.doCrawl.visit E G held bl pool u = .ok p) :
    p.BaseURL = pool.BaseURL ∧
    ∃ new, p.additionCh = pool.additionCh ++ new ∧
      (held = true → new = []) ∧
      ∀ unit ∈ new, unit.source = .CrawlSource ∧ unit.depth = bl.ReqDepth + 1 ∧
        bl.ReqDepth < G.maxCrawl ∧
        ∃ parsed, E.Parse (Pool.doCrawl.resolve E pool.BaseURL bl u) = some parsed ∧
          parsed.Host = bl.Url.Host ∧ unit.path = parsed.Path := by
  unfold Pool.doCrawl.visit at h
  simp only at h
  cases hseen : pool.urls (Pool.doCrawl.resolve E pool.BaseURL bl u) with
  | some n =>
    simp only [hseen, Except.ok.injEq] at h
    subst h
    exact ⟨rfl, [], by simp, fun _ => rfl, by simp⟩
  | none =>
    simp only [hseen] at h
    cases held with
    | true => simp at h
    | false =>
      simp only [Bool.false_eq_true, if_false] at h
      by_cases hd : bl.ReqDepth < G.maxCrawl
      · simp only [hd, if_true] at h
        cases hparse : E.Parse (Pool.doCrawl.resolve E pool.BaseURL bl u) with
        | none =>
          simp only [hparse, Except.ok.injEq] at h
          subst h
          exact ⟨rfl, [], by simp, fun _ => rfl, by simp⟩
        | some parsed =>
          simp only [hparse] at h
          by_cases hhost : parsed.Host = bl.Url.Host
          · simp only [hhost, ne_eq, not_true_eq_false, if_false, Except.ok.injEq] at h
            subst h
            refine ⟨rfl, _, rfl, by simp, ?_⟩
            intro unit hunit
            simp only [List.mem_singleton] at hunit
            subst hunit
            exact ⟨rfl, rfl, hd, parsed, rfl, hhost, rfl⟩
          · simp only [ne_eq, hhost, not_false_eq_true, if_true, Except.ok.injEq] at h
            subst h
            exact ⟨rfl, [], by simp, fun _ => rfl, by simp⟩
      · simp only [hd, if_false, Except.ok.injEq] at h
        subst h
        exact ⟨rfl, [], by simp, fun _ => rfl, by simp⟩

/-- The units the whole crawl loop adds. -/
theorem doCrawl_loop_units (E : Env) (G : Globals) (held : Bool) (bl : Baseline)
    (urls : List String) :
    ∀ (pool p : Pool), Pool.doCrawl.loop E G held bl pool urls = .ok p →
      p.BaseURL = pool.BaseURL ∧
      ∃ new, p.additionCh = pool.additionCh ++ new ∧
        (held = true → new = []) ∧
        ∀ unit ∈ new, unit.source = .CrawlSource ∧ unit.depth = bl.ReqDepth + 1 ∧
          bl.ReqDepth < G.maxCrawl ∧
          ∃ u ∈ urls, ∃ parsed, E.Parse (Pool.doCrawl.resolve E pool.BaseURL bl u) = some parsed ∧
            parsed.Host = bl.Url.Host ∧ unit.path = parsed.Path := by
  induction urls with
  | nil =>
    intro pool p h
    simp only [Pool.doCrawl.loop, Except.ok.injEq] at h
    subst h
    exact ⟨rfl, [], by simp, fun _ => rfl, by simp⟩
  | cons u rest ih =>
    intro pool p h
    simp only [Pool.doCrawl.loop] at h
    cases hv : Pool.doCrawl.visit E G held bl pool u with
    | error e => simp [hv] at h
    | ok p1 =>
      simp only [hv] at h
      obtain ⟨hb1, new1, hadd1, hheld1, hnew1⟩ := doCrawl_visit_units E G held bl pool u p1 hv
      obtain ⟨hb2, new2, hadd2, hheld2, hnew2⟩ := ih p1 p h
      refine ⟨hb2.trans hb1, new1 ++ new2, ?_, ?_, ?_⟩
      · rw [hadd2, hadd1, List.append_assoc]
      · intro hh
        rw [hheld1 hh, hheld2 hh]
        rfl
      · intro unit hunit
        rcases List.mem_append.1 hunit with hm | hm
        · obtain ⟨a, b, c, parsed, d, e, f⟩ := hnew1 unit hm
          exact ⟨a, b, c, u, List.mem_cons_self _ _, parsed, d, e, f⟩
        · obtain ⟨a, b, c, u', hu', parsed, d, e, f⟩ := hnew2 unit hm
          rw [hb1] at d
          exact ⟨a, b, c, u', List.mem_cons_of_mem _ hu', parsed, d, e, f⟩

/-- The units `doCrawl` adds. -/
theorem doCrawl_units (E : Env) (G : Globals) (held : Bool) (pool : Pool) (bl : Baseline)
    (p : Pool) (b : Baseline) (h : Pool.doCrawl E G held pool bl = .ok (p, b)) :
    b = (if pool.Crawl = true then bl.CollectURL E else bl) ∧
    ∃ new, p.additionCh = pool.additionCh ++ new ∧
      (held = true → new = []) ∧
      ∀ unit ∈ new, unit.source = .CrawlSource ∧ unit.depth = bl.ReqDepth + 1 ∧
        bl.ReqDepth < G.maxCrawl ∧
        ∃ u ∈ (bl.CollectURL E).URLs, ∃ parsed,
          E.Parse (Pool.doCrawl.resolve E pool.BaseURL (bl.CollectURL E) u) = some parsed ∧
          parsed.Host = bl.Url.Host ∧ unit.path = parsed.Path := by
  unfold Pool.doCrawl at h
  cases hc : pool.Crawl with
  | false =>
    simp only [hc, Bool.not_false, if_true, Except.ok.injEq, Prod.mk.injEq] at h
    obtain ⟨h1, h2⟩ := h
    subst h1 h2
    exact ⟨by simp, [], by simp, fun _ => rfl, by simp⟩
  | true =>
    simp only [hc, Bool.not_true, Bool.false_eq_true, if_false] at h
    cases hl : Pool.doCrawl.loop E G held (bl.CollectURL E) pool (bl.CollectURL E).URLs with
    | error e => simp [hl] at h
    | ok p1 =>
      simp only [hl, Except.ok.injEq, Prod.mk.injEq] at h
      obtain ⟨h1, h2⟩ := h
      subst h1 h2
      obtain ⟨-, new, hadd, hheld, hnew⟩ :=
        doCrawl_loop_units E G held (bl.CollectURL E) (bl.CollectURL E).URLs pool p1 hl
      exact ⟨by simp, new, hadd, hheld, hnew⟩

/-- Without the lock held the crawl loop always runs to its end. -/
theorem doCrawl_loop_returns (E : Env) (G : Globals) (bl : Baseline) (urls : List String) :
    ∀ pool : Pool, ∃ p, Pool.doCrawl.loop E G false bl pool urls = .ok p := by
  induction urls with
  | nil => exact fun pool => ⟨pool, rfl⟩
  | cons u rest ih =>
    intro pool
    have hv : ∃ p1, Pool.doCrawl.visit E G false bl pool u = .ok p1 := by
      unfold Pool.doCrawl.visit
      simp only [Bool.false_eq_true, if_false]
      split
      · exact ⟨_, rfl⟩
      · split_ifs
        · split
          · exact ⟨_, rfl⟩
          · split_ifs <;> exact ⟨_, rfl⟩
        · exact ⟨_, rfl⟩
    obtain ⟨p1, hp1⟩ := hv
    obtain ⟨p, hp⟩ := ih p1
    exact ⟨p, by simp only [Pool.doCrawl.loop, hp1, hp]⟩

/-- Without the lock held `doCrawl` always returns. -/
theorem doCrawl_returns (E : Env) (G : Globals) (pool : Pool) (bl : Baseline) :
    ∃ p b, Pool.doCrawl E G false pool bl = .ok (p, b) := by
  unfold Pool.doCrawl
  cases hc : pool.Crawl with
  | false => exact ⟨pool, bl, by simp⟩
  | true =>
    obtain ⟨p, hp⟩ := doCrawl_loop_returns E G (bl.CollectURL E) (bl.CollectURL E).URLs pool
    exact ⟨p, bl.CollectURL E, by simp [hp]⟩

theorem Collect_fields (E : Env) (bl : Baseline) :
    (bl.Collect E).IsValid = bl.IsValid ∧ (bl.Collect E).Status = bl.Status ∧
      (bl.Collect E).Reason = bl.Reason ∧ (bl.Collect E).ReqDepth = bl.ReqDepth ∧
      (bl.Collect E).Url = bl.Url := by
  unfold Baseline.Collect
  split_ifs <;> exact ⟨rfl, rfl, rfl, rfl, rfl⟩

/-- The crawl loop body only writes the dedup map and the addition channel. -/
theorem doCrawl_visit_frame (E : Env) (G : Globals) (held : Bool) (bl : Baseline) (pool : Pool)
    (u : String) (p : Pool) (h : Pool.doCrawl.visit E G held bl pool u = .ok p) :
    p = { pool with urls := p.urls, additionCh := p.additionCh } := by
  unfold Pool.doCrawl.visit at h
  dsimp only at h
  split at h
  · simp only [Except.ok.injEq] at h
    subst h
    rfl
  · split_ifs at h
    · split at h
      · simp only [Except.ok.injEq] at h
        subst h
        rfl
      · split_ifs at h <;>
        · simp only [Except.ok.injEq] at h
          subst h
          rfl
    · simp only [Except.ok.injEq] at h
      subst h
      rfl

theorem doCrawl_loop_frame (E : Env) (G : Globals) (held : Bool) (bl : Baseline)
    (urls : List String) :
    ∀ (pool p : Pool), Pool.doCrawl.loop E G held bl pool urls = .ok p →
      p = { pool with urls := p.urls, additionCh := p.additionCh } := by
  induction urls with
  | nil =>
    intro pool p h
    simp only [Pool.doCrawl.loop, Except.ok.injEq] at h
    subst h
    rfl
  | cons u rest ih =>
    intro pool p h
    simp only [Pool.doCrawl.loop] at h
    cases hv : Pool.doCrawl.visit E G held bl pool u with
    | error e => simp [hv] at h
    | ok p1 =>
      simp only [hv] at h
      have h1 := doCrawl_visit_frame E G held bl pool u p1 hv
      have h2 := ih p1 p h
      rw [h2, h1]

/-- `doCrawl` only writes the dedup map and the addition channel of the pool,
and the `URLs` of the baseline. -/
theorem doCrawl_frame (E : Env) (G : Globals) (held : Bool) (pool : Pool) (bl : Baseline)
    (p : Pool) (b : Baseline) (h : Pool.doCrawl E G held pool bl = .ok (p, b)) :
    p = { pool with urls := p.urls, additionCh := p.additionCh } ∧
      b = { bl with URLs := b.URLs } := by
  unfold Pool.doCrawl at h
  split_ifs at h
  · simp only [Except.ok.injEq, Prod.mk.injEq] at h
    obtain ⟨h1, h2⟩ := h
    subst h1 h2
    exact ⟨rfl, rfl⟩
  · dsimp only at h
    split at h
    · simp at h
    · rename_i p1 hl
      simp only [Except.ok.injEq, Prod.mk.injEq] at h
      obtain ⟨h1, h2⟩ := h
      subst h1 h2
      exact ⟨doCrawl_loop_frame E G held _ _ pool p1 hl, rfl⟩

/-- C8: every unit doCrawl schedules is a CrawlSource unit built from an
extracted URL whose resolved form parses with the host of the baseline; for a
URL whose resolved form parses with another host the loop body schedules
nothing; without the lock held doCrawl returns. -/
theorem C8_crawl_scope_guard (E : Env) (G : Globals) :
    (∀ (held : Bool) (pool : Pool) (bl : Baseline) (p : Pool) (b : Baseline),
      Pool.doCrawl E G held pool bl = .ok (p, b) →
      ∃ new, p.additionCh = pool.additionCh ++ new ∧
        ∀ unit ∈ new, unit.source = .CrawlSource ∧
          ∃ u ∈ (bl.CollectURL E).URLs, ∃ parsed,
            E.Parse (Pool.doCrawl.resolve E pool.BaseURL (bl.CollectURL E) u) = some parsed ∧
            parsed.Host = bl.Url.Host ∧ unit.path = parsed.Path) ∧
    (∀ (held : Bool) (bl : Baseline) (pool : Pool) (u : String) (parsed : URL) (p : Pool),
      E.Parse (Pool.doCrawl.resolve E pool.BaseURL bl u) = some parsed →
      parsed.Host ≠ bl.Url.Host →
      Pool.doCrawl.visit E G held bl pool u = .ok p →
      p.additionCh = pool.additionCh) ∧
    (∀ (pool : Pool) (bl : Baseline), ∃ p b, Pool.doCrawl E G false pool bl = .ok (p, b)) := by
  refine ⟨?_, ?_, ?_⟩
  · intro held pool bl p b h
    obtain ⟨-, new, hadd, -, hnew⟩ := doCrawl_units E G held pool bl p b h
    refine ⟨new, hadd, ?_⟩
    intro unit hunit
    obtain ⟨a, -, -, u, hu, parsed, h1, h2, h3⟩ := hnew unit hunit
    exact ⟨a, u, hu, parsed, h1, h2, h3⟩
  · intro held bl pool u parsed p hparse hhost h
    obtain ⟨-, new, hadd, -, hnew⟩ := doCrawl_visit_units E G held bl pool u p h
    have hnil : new = [] := by
      apply List.eq_nil_iff_forall_not_mem.2
      intro unit hunit
      obtain ⟨-, -, -, parsed', h1, h2, -⟩ := hnew unit hunit
      rw [hparse] at h1
      simp only [Option.some.injEq] at h1
      subst h1
      exact hhost h2
    rw [hadd, hnil, List.append_nil]
  · exact fun pool bl => doCrawl_returns E G pool bl

/-- C8 (instance): on a page of host `t`, the link
`http://other.example/foo` is entered into the dedup map and no unit is
scheduled for it. -/
theorem C8_crawl_scope_guard_witness :
    (sampleEnv.Parse (Pool.doCrawl.resolve sampleEnv sampleCrawlPool.BaseURL sampleCrawlPage
        "http://other.example/foo") =
        some { Scheme := "http", Host := "other.example", Path := "/foo" } ∧
      ({ Scheme := "http", Host := "other.example", Path := "/foo" } : URL).Host ≠
        sampleCrawlPage.Url.Host ∧
      Pool.doCrawl.visit sampleEnv Globals.init false sampleCrawlPage sampleCrawlPool
          "http://other.example/foo" =
        .ok { sampleCrawlPool with
          urls := Function.update sampleCrawlPool.urls "http://other.example/foo" (some 1) }) ∧
    ({ sampleCrawlPool with
        urls := Function.update sampleCrawlPool.urls "http://other.example/foo" (some 1) } :
      Pool).additionCh = sampleCrawlPool.additionCh :=
  ⟨⟨rfl, by decide, rfl⟩,
    (C8_crawl_scope_guard sampleEnv Globals.init).2.1 false sampleCrawlPage sampleCrawlPool
      "http://other.example/foo" { Scheme := "http", Host := "other.example", Path := "/foo" }
      { sampleCrawlPool with
        urls := Function.update sampleCrawlPool.urls "http://other.example/foo" (some 1) }
      rfl (by decide) rfl⟩

/-- One `addFuzzyBaseline` call that returns: the registry gains the stored
form of `bl` under `bl.Status` when that key is free and a fuzzy status, and
is otherwise unchanged. -/
theorem addFuzzyBaseline_registry (E : Env) (G : Globals) (pool : Pool) (bl : Baseline)
    (p : Pool) (b : Baseline) (h : Pool.addFuzzyBaseline E G pool bl = .ok (p, b)) :
    p.Crawl = pool.Crawl ∧
    ∀ s, p.baselines s =
      if pool.baselines bl.Status = none ∧ bl.Status ∈ G.FuzzyStatus ∧ s = bl.Status then
        some (bl.stored E pool.Crawl)
      else pool.baselines s := by
  unfold Pool.addFuzzyBaseline at h
  by_cases hc : (pool.baselines bl.Status).isNone = true ∧
      IntsContains G.FuzzyStatus bl.Status = true
  · rw [if_pos hc] at h
    obtain ⟨hnone, hfz⟩ := hc
    rw [Option.isNone_iff_eq_none] at hnone
    rw [IntsContains_iff] at hfz
    dsimp only at h
    cases hd : Pool.doCrawl E G true pool (bl.Collect E) with
    | error e => simp [hd] at h
    | ok r =>
      obtain ⟨p1, b1⟩ := r
      simp only [hd, Except.ok.injEq, Prod.mk.injEq] at h
      obtain ⟨h1, h2⟩ := h
      subst h1 h2
      obtain ⟨hp1, -⟩ := doCrawl_frame E G true pool (bl.Collect E) p1 b1 hd
      obtain ⟨hb1, -⟩ := doCrawl_units E G true pool (bl.Collect E) p1 b1 hd
      have hbase : p1.baselines = pool.baselines := by rw [hp1]
      have hcrawl : p1.Crawl = pool.Crawl := by rw [hp1]
      have hstored : b1 = bl.stored E pool.Crawl := by
        rw [hb1]
        rfl
      have hstatus : b1.Status = bl.Status := by
        rw [hb1]
        split_ifs
        · exact (Collect_fields E bl).2.1
        · exact (Collect_fields E bl).2.1
      refine ⟨hcrawl, ?_⟩
      intro s
      show Function.update p1.baselines b1.Status (some b1) s = _
      rw [hbase, hstatus, hstored]
      by_cases hs : s = bl.Status
      · subst hs
        rw [Function.update_same, if_pos ⟨hnone, hfz, rfl⟩]
      · rw [Function.update_noteq hs, if_neg (fun hh => hs hh.2.2)]
  · rw [if_neg hc] at h
    simp only [Except.ok.injEq, Prod.mk.injEq] at h
    obtain ⟨h1, h2⟩ := h
    rw [← h1]
    refine ⟨rfl, ?_⟩
    intro s
    have hneg : ¬ (pool.baselines bl.Status = none ∧ bl.Status ∈ G.FuzzyStatus ∧
        s = bl.Status) := by
      rintro ⟨a, b', -⟩
      exact hc ⟨by rw [a]; rfl, (IntsContains_iff _ _).2 b'⟩
    rw [if_neg hneg]

/-- With the crawler disabled `addFuzzyBaseline` returns. -/
theorem addFuzzyBaseline_returns (E : Env) (G : Globals) (pool : Pool) (bl : Baseline)
    (hcrawl : pool.Crawl = false) :
    ∃ p b, Pool.addFuzzyBaseline E G pool bl = .ok (p, b) ∧ p.Crawl = false := by
  unfold Pool.addFuzzyBaseline
  have hd : Pool.doCrawl E G true pool (bl.Collect E) = .ok (pool, bl.Collect E) := by
    simp [Pool.doCrawl, hcrawl]
  split_ifs
  · simp only [hd]
    exact ⟨_, _, rfl, hcrawl⟩
  · exact ⟨_, _, rfl, hcrawl⟩

/-- The registry after a sequence of `addFuzzyBaseline` calls that returns. -/
theorem addFuzzyBaselines_registry (E : Env) (G : Globals) (bls : List Baseline) :
    ∀ (pool p : Pool), Pool.addFuzzyBaselines E G pool bls = .ok p →
      p.Crawl = pool.Crawl ∧
      ∀ s, p.baselines s =
        match pool.baselines s with
        | some entry => some entry
        | none =>
          if s ∈ G.FuzzyStatus then
            (bls.find? (fun bl => decide (bl.Status = s))).map (Baseline.stored E pool.Crawl)
          else none := by
  induction bls with
  | nil =>
    intro pool p h
    simp only [Pool.addFuzzyBaselines, Except.ok.injEq] at h
    rw [← h]
    refine ⟨rfl, ?_⟩
    intro s
    cases hps : pool.baselines s <;> simp
  | cons bl rest ih =>
    intro pool p h
    simp only [Pool.addFuzzyBaselines] at h
    cases hcall : Pool.addFuzzyBaseline E G pool bl with
    | error e => simp [hcall] at h
    | ok r =>
      obtain ⟨p1, b1⟩ := r
      simp only [hcall] at h
      obtain ⟨hc1, hreg1⟩ := addFuzzyBaseline_registry E G pool bl p1 b1 hcall
      obtain ⟨hc2, hreg2⟩ := ih p1 p h
      refine ⟨hc2.trans hc1, ?_⟩
      intro s
      rw [hreg2 s, hreg1 s, hc1]
      cases hps : pool.baselines s with
      | some entry =>
        have hneg : ¬ (pool.baselines bl.Status = none ∧ bl.Status ∈ G.FuzzyStatus ∧
            s = bl.Status) := by
          rintro ⟨a, -, c⟩
          rw [← c, hps] at a
          exact absurd a (by simp)
        rw [if_neg hneg]
      | none =>
        by_cases hs : bl.Status = s
        · subst hs
          by_cases hfz : bl.Status ∈ G.FuzzyStatus
          · simp [hps, hfz]
          · simp [hps, hfz]
        · have hneg : ¬ (pool.baselines bl.Status = none ∧ bl.Status ∈ G.FuzzyStatus ∧
              s = bl.Status) := by
            rintro ⟨-, -, c⟩
            exact hs c.symm
          rw [if_neg hneg]
          simp [hps, List.find?_cons, hs]

/-- With the crawler disabled every sequence of `addFuzzyBaseline` calls
returns. -/
theorem addFuzzyBaselines_returns (E : Env) (G : Globals) (bls : List Baseline) :
    ∀ pool : Pool, pool.Crawl = false → ∃ p, Pool.addFuzzyBaselines E G pool bls = .ok p := by
  induction bls with
  | nil => exact fun pool _ => ⟨pool, rfl⟩
  | cons bl rest ih =>
    intro pool hcrawl
    obtain ⟨p1, b1, hcall, hc1⟩ := addFuzzyBaseline_returns E G pool bl hcrawl
    obtain ⟨p, hp⟩ := ih p1 hc1
    exact ⟨p, by simp only [Pool.addFuzzyBaselines, hcall, hp]⟩

/-- With the crawler enabled, registering a 404 page that links to a URL not
yet seen never returns: `doCrawl` locks `pool.locker`, which
`addFuzzyBaseline` already holds. -/
theorem addFuzzyBaseline_deadlock :
    Pool.addFuzzyBaseline sampleEnv Globals.init sampleCrawlPool
        { sampleCrawlPage with Status := 404 } = .error .deadlock := by
  rfl

/-- C9: after any sequence of addFuzzyBaseline calls that returns, an entry
the registry already had is still there unchanged, and a key that was free
holds the first baseline of the sequence with that status (in the form the
call stores it) when the status is one of 403, 404, 500, 501, 502, 503 and
nothing otherwise; on a fresh pool all keys are therefore fuzzy statuses;
with the crawler disabled every sequence returns. -/
theorem C9_registry_write_once (E : Env) :
    (∀ (pool : Pool) (bls : List Baseline) (p : Pool),
      Pool.addFuzzyBaselines E Globals.init pool bls = .ok p →
      (∀ s entry, pool.baselines s = some entry → p.baselines s = some entry) ∧
      (∀ s, pool.baselines s = none →
        p.baselines s =
          if s ∈ [403, 404, 500, 501, 502, 503] then
            (bls.find? (fun bl => decide (bl.Status = s))).map (Baseline.stored E pool.Crawl)
          else none)) ∧
    (∀ (config : Pool) (bls : List Baseline) (p : Pool),
      Pool.addFuzzyBaselines E Globals.init (NewPool config) bls = .ok p →
      ∀ s entry, p.baselines s = some entry →
        s ∈ [403, 404, 500, 501, 502, 503] ∧ entry.Status = s ∧
        (bls.find? (fun bl => decide (bl.Status = s))).map (Baseline.stored E config.Crawl) =
          some entry) ∧
    (∀ (pool : Pool) (bls : List Baseline), pool.Crawl = false →
      ∃ p, Pool.addFuzzyBaselines E Globals.init pool bls = .ok p) := by
  have hfz : Globals.init.FuzzyStatus = [403, 404, 500, 501, 502, 503] := rfl
  refine ⟨?_, ?_, ?_⟩
  · intro pool bls p h
    obtain ⟨-, hreg⟩ := addFuzzyBaselines_registry E Globals.init bls pool p h
    constructor
    · intro s entry hs
      rw [hreg s, hs]
    · intro s hs
      rw [hreg s, hs, hfz]
  · intro config bls p h
    obtain ⟨-, hreg⟩ := addFuzzyBaselines_registry E Globals.init bls (NewPool config) p h
    intro s entry hentry
    have h0 : (NewPool config).baselines s = none := rfl
    have hc : (NewPool config).Crawl = config.Crawl := rfl
    rw [hreg s, h0, hfz, hc] at hentry
    dsimp only at hentry
    by_cases hs : s ∈ [403, 404, 500, 501, 502, 503]
    · rw [if_pos hs] at hentry
      refine ⟨hs, ?_, hentry⟩
      cases hfind : bls.find? (fun bl => decide (bl.Status = s)) with
      | none => simp [hfind] at hentry
      | some bl =>
        rw [hfind] at hentry
        simp only [Option.map_some', Option.some.injEq] at hentry
        have hbl : bl.Status = s := by
          have := List.find?_some hfind
          simpa using this
        rw [← hentry, ← hbl]
        unfold Baseline.stored
        split_ifs
        · exact (Collect_fields E bl).2.1
        · exact (Collect_fields E bl).2.1
    · rw [if_neg hs] at hentry
      exact absurd hentry (by simp)
  · exact fun pool bls hcrawl => addFuzzyBaselines_returns E Globals.init bls pool hcrawl

/-- C9 (instance): two 404 pages and a 200 page are registered on a fresh
pool; the registry holds the first 404 page under 404 and nothing under 200. -/
theorem C9_registry_write_once_witness :
    (NewPool {}).Crawl = false ∧
    ∃ p, Pool.addFuzzyBaselines sampleEnv Globals.init (NewPool {})
        [{ Status := 404, Body := "first" }, { Status := 404, Body := "second" },
         { Status := 200, Body := "home" }] = .ok p ∧
      p.baselines 404 = some (Baseline.stored sampleEnv false { Status := 404, Body := "first" }) ∧
      p.baselines 200 = none := by
  refine ⟨rfl, ?_⟩
  obtain ⟨p, hp⟩ := (C9_registry_write_once sampleEnv).2.2 (NewPool {})
    [{ Status := 404, Body := "first" }, { Status := 404, Body := "second" },
     { Status := 200, Body := "home" }] rfl
  obtain ⟨-, hfree⟩ := (C9_registry_write_once sampleEnv).1 (NewPool {}) _ p hp
  refine ⟨p, hp, ?_, ?_⟩
  · rw [hfree 404 rfl]
    rfl
  · rw [hfree 200 rfl]
    rfl

/-- The three outcomes of `BaseCompare` against a picked baseline `L`. -/
theorem BaseCompare_against (E : Env) (pool : Pool) (B L : Baseline)
    (hvalid : B.IsValid = true) (hbase : Pool.BaseCompare.base pool B = .ok (some L)) :
    (E.Compare L B = 1 →
      Pool.BaseCompare E pool B =
        .ok (false, pool, { B with Reason := "compare failed" })) ∧
    (E.Compare L B = 0 → E.FuzzyCompare L (B.Collect E) = true →
      Pool.BaseCompare E pool B =
        .ok (false,
          { pool with
            Statistor := { pool.Statistor with FuzzyNumber := pool.Statistor.FuzzyNumber + 1 }
            FuzzyCh := pool.FuzzyCh ++
              [{ B.Collect E with Reason := "fuzzy compare failed", IsFuzzy := true }] },
          { B.Collect E with Reason := "fuzzy compare failed", IsFuzzy := true })) ∧
    (E.Compare L B ≠ 1 → ¬ (E.Compare L B = 0 ∧ E.FuzzyCompare L (B.Collect E) = true) →
      Pool.BaseCompare E pool B = .ok (true, pool, B.Collect E)) := by
  refine ⟨?_, ?_, ?_⟩
  · intro h1
    simp [Pool.BaseCompare, hvalid, hbase, h1, ErrorType.Error]
  · intro h0 hf
    have h1 : E.Compare L B ≠ 1 := by omega
    simp only [Pool.BaseCompare, hvalid, hbase, h1, h0, hf]
    simp [Pool.putToFuzzy, ErrorType.Error]
  · intro h1 h2
    simp only [Pool.BaseCompare, hvalid, hbase, h1, h2]
    simp

/-- The rules of `PreCompare` under the declared status tables, for a learned
random baseline. -/
theorem PreCompare_rules (pool : Pool) (r : Baseline) (s : Int) (hdr : String → String) :
    Pool.PreCompare Globals.init { pool with random := some r }
        { StatusCode := s, GetHeader := hdr } =
      .ok (if s ∈ [200] then none
        else if r.Status ≠ 200 ∧ s = r.Status then some ErrorType.ErrSameStatus
        else if s ∈ [400, 410] then some ErrorType.ErrBadStatus
        else if s ∈ [493, 418, 1020, 406] then some ErrorType.ErrWaf
        else if hdr "Location" = r.RedirectURL then some ErrorType.ErrRedirect
        else none) := by
  simp only [Pool.PreCompare, Pool.checkRedirect, Globals.init, IntsContains, List.any_cons,
    List.any_nil, Bool.or_false, beq_iff_eq, Bool.or_eq_true, List.mem_cons, List.mem_singleton,
    List.not_mem_nil, or_false, Bool.and_eq_true, decide_eq_true_eq]
  split_ifs <;> first | rfl | (exfalso; omega)

/-- C16: PreCompare accepts a response of a status other than 200 only if its
Location value differs from random.RedirectURL; when random has no redirect
target, a response of a status other than 200 without Location header that
is not rejected as same, bad or WAF status is rejected with ErrRedirect,
whose text is "duplicate redirect url". -/
theorem C16_PreCompare_empty_redirect (pool : Pool) (r : Baseline) (s : Int)
    (hdr : String → String) :
    (Pool.PreCompare Globals.init { pool with random := some r }
        { StatusCode := s, GetHeader := hdr } = .ok none →
      s ≠ 200 → hdr "Location" ≠ r.RedirectURL) ∧
    (r.RedirectURL = "" → s ≠ 200 → hdr "Location" = "" →
      ¬ (r.Status ≠ 200 ∧ s = r.Status) → s ∉ [400, 410] → s ∉ [493, 418, 1020, 406] →
      Pool.PreCompare Globals.init { pool with random := some r }
        { StatusCode := s, GetHeader := hdr } = .ok (some ErrorType.ErrRedirect)) ∧
    ErrorType.ErrRedirect.Error = "duplicate redirect url" := by
  refine ⟨?_, ?_, rfl⟩
  · intro h hs hloc
    rw [PreCompare_rules] at h
    have h200 : s ∉ [200] := by simpa using hs
    rw [if_neg h200] at h
    split_ifs at h
    all_goals simp at h
  · intro hr hs hloc hsame hbad hwaf
    rw [PreCompare_rules]
    have h200 : s ∉ [200] := by simpa using hs
    rw [if_neg h200, if_neg hsame, if_neg hbad, if_neg hwaf, if_pos (by rw [hloc, hr])]

/-- C16 (instance): a 403 answer without Location header, on a site whose
random baseline is a 404 without redirect, is rejected as a duplicate
redirect. -/
theorem C16_PreCompare_empty_redirect_witness :
    (({ Status := 404, Body := "Not Found" } : Baseline).RedirectURL = "" ∧ (403 : Int) ≠ 200 ∧
      (fun _ : String => "") "Location" = "" ∧
      ¬ (({ Status := 404, Body := "Not Found" } : Baseline).Status ≠ 200 ∧
        (403 : Int) = ({ Status := 404, Body := "Not Found" } : Baseline).Status) ∧
      (403 : Int) ∉ [400, 410] ∧ (403 : Int) ∉ [493, 418, 1020, 406]) ∧
    Pool.PreCompare Globals.init
        { NewPool {} with random := some { Status := 404, Body := "Not Found" } }
        { StatusCode := 403, GetHeader := fun _ => "" } = .ok (some ErrorType.ErrRedirect) :=
  ⟨⟨rfl, by decide, rfl, by decide, by decide, by decide⟩,
    (C16_PreCompare_empty_redirect (NewPool {}) { Status := 404, Body := "Not Found" } 403
      (fun _ => "")).2.1 rfl (by decide) rfl (by decide) (by decide) (by decide)⟩

/-- The branches of the URL resolution at the head of the crawl loop. -/
theorem doCrawl_resolve_branches (E : Env) (BaseURL : String) (bl : Baseline) (u : String) :
    (HasPrefix u "//" = true → Pool.doCrawl.resolve E BaseURL bl u = bl.Url.Scheme ++ u) ∧
    (HasPrefix u "//" = false → HasPrefix u "/" = true →
      Pool.doCrawl.resolve E BaseURL bl u = E.URLJoin BaseURL u) ∧
    (HasPrefix u "//" = false → HasPrefix u "http" = false →
      Pool.doCrawl.resolve E BaseURL bl u = E.URLJoin BaseURL u) ∧
    (HasPrefix u "//" = false → HasPrefix u "/" = false → HasPrefix u "http" = true →
      Pool.doCrawl.resolve E BaseURL bl u = u) := by
  unfold Pool.doCrawl.resolve
  refine ⟨?_, ?_, ?_, ?_⟩
  · intro h
    simp [h]
  · intro h1 h2
    simp [h1, h2]
  · intro h1 h2
    by_cases h3 : HasPrefix u "/" = true
    · simp [h1, h3]
    · simp [h1, h2, h3]
  · intro h1 h2 h3
    simp [h1, h2, h3]

/-- C14 (the code at the failing input): the link `//h/p` found on an http
page is rewritten to `http//h/p`, without the colon; this is not the absolute
URL `http://h/p`, it parses as a relative reference with an empty host, and
doCrawl schedules no unit for it. -/
theorem C14_scheme_relative_link :
    Pool.doCrawl.resolve sampleEnv sampleCrawlPool.BaseURL sampleCrawlPage "//h/p" = "http//h/p" ∧
    sampleCrawlPage.Url.Scheme ++ ":" ++ "//h/p" = "http://h/p" ∧
    "http//h/p" ≠ "http://h/p" ∧
    sampleEnv.Parse "http//h/p" = some { Scheme := "", Host := "", Path := "http//h/p" } ∧
    (Pool.doCrawl.visit sampleEnv Globals.init false sampleCrawlPage sampleCrawlPool
      "//h/p").toOption.map (fun p => (p.additionCh, p.urls "http//h/p")) = some ([], some 1) := by
  refine ⟨rfl, rfl, by decide, rfl, rfl⟩

theorem StringsReplace1_http (rest : String) :
    StringsReplace1 ("http://" ++ rest) "http" "https" = "https://" ++ rest := by
  cases rest with
  | mk cs => rfl

/-- `doRedirect` only writes the addition channel. -/
theorem doRedirect_frame (E : Env) (G : Globals) (pool : Pool) (bl : Baseline) (depth : Int)
    (p : Pool) (h : Pool.doRedirect E G pool bl depth = .ok p) :
    p = { pool with additionCh := p.additionCh } := by
  unfold Pool.doRedirect at h
  split_ifs at h
  · simp only [Except.ok.injEq] at h
    rw [← h]
  · split at h
    · simp only [Except.ok.injEq] at h
      rw [← h]
    · split at h
      · exact absurd h (by simp)
      · split_ifs at h <;>
        · simp only [Except.ok.injEq] at h
          rw [← h]

/-- `addFuzzyBaseline` only writes the dedup map, the addition channel and
the registry. -/
theorem addFuzzyBaseline_frame (E : Env) (G : Globals) (pool : Pool) (bl : Baseline)
    (p : Pool) (b : Baseline) (h : Pool.addFuzzyBaseline E G pool bl = .ok (p, b)) :
    p = { pool with urls := p.urls, additionCh := p.additionCh, baselines := p.baselines } := by
  unfold Pool.addFuzzyBaseline at h
  split_ifs at h
  · dsimp only at h
    cases hd : Pool.doCrawl E G true pool (bl.Collect E) with
    | error e => simp [hd] at h
    | ok r =>
      obtain ⟨p1, b1⟩ := r
      simp only [hd, Except.ok.injEq, Prod.mk.injEq] at h
      obtain ⟨h1, -⟩ := h
      obtain ⟨hp1, -⟩ := doCrawl_frame E G true pool (bl.Collect E) p1 b1 hd
      rw [← h1, hp1]
  · simp only [Except.ok.injEq, Prod.mk.injEq] at h
    rw [← h.1]

/-- What the first half of the worker leaves alone. -/
theorem worker_build_frame (E : Env) (G : Globals) (pool : Pool) (unit : Unit) (req : Request)
    (x : Exchange) (p : Pool) (b : Baseline)
    (h : Pool.worker.build E G pool unit req x = .ok (p, b)) :
    p.BaseURL = pool.BaseURL ∧ p.Statistor.End = pool.Statistor.End ∧
      p.reqCount = pool.reqCount ∧ p.random = pool.random ∧ p.index = pool.index := by
  unfold Pool.worker.build at h
  split_ifs at h
  · simp only [Except.ok.injEq, Prod.mk.injEq] at h
    rw [← h.1]
    exact ⟨rfl, rfl, rfl, rfl, rfl⟩
  · simp only [Except.ok.injEq, Prod.mk.injEq] at h
    rw [← h.1]
    exact ⟨rfl, rfl, rfl, rfl, rfl⟩
  · simp only [Except.ok.injEq, Prod.mk.injEq] at h
    rw [← h.1]
    exact ⟨rfl, rfl, rfl, rfl, rfl⟩
  · split at h
    · exact absurd h (by simp)
    · simp only [Except.ok.injEq, Prod.mk.injEq] at h
      rw [← h.1]
      exact ⟨rfl, rfl, rfl, rfl, rfl⟩
    · dsimp only at h
      split at h
      · exact absurd h (by simp)
      · rename_i p1 b1 hred
        have hfz := addFuzzyBaseline_frame E G p1 b1 p b h
        have hp1 : p1 = { pool with additionCh := p1.additionCh } := by
          split_ifs at hred
          all_goals first
            | (simp only [Except.ok.injEq, Prod.mk.injEq] at hred
               rw [← hred.1])
            | (split at hred
               · exact absurd hred (by simp)
               · rename_i p2 hdo
                 simp only [Except.ok.injEq, Prod.mk.injEq] at hred
                 rw [← hred.1]
                 exact doRedirect_frame E G pool _ unit.depth p2 hdo)
        rw [hfz, hp1]
        exact ⟨rfl, rfl, rfl, rfl, rfl⟩

theorem doCheck_frame (pool : Pool) :
    (Pool.doCheck pool).BaseURL = pool.BaseURL ∧
      (Pool.doCheck pool).Statistor = pool.Statistor ∧
      (Pool.doCheck pool).reqCount = pool.reqCount ∧
      (Pool.doCheck pool).random = pool.random := by
  unfold Pool.doCheck
  split_ifs <;> exact ⟨rfl, rfl, rfl, rfl⟩

/-- What the routing switch of the worker leaves alone: the base URL and the
end cursor; `reqCount` never decreases and moves only for a WordSource
unit. -/
theorem worker_route_frame (E : Env) (G : Globals) (pool : Pool) (unit : Unit) (bl : Baseline)
    (p : Pool) (h : Pool.worker.route E G pool unit bl = .ok p) :
    p.BaseURL = pool.BaseURL ∧ p.Statistor.End = pool.Statistor.End ∧
      pool.reqCount ≤ p.reqCount ∧
      (unit.source ≠ .WordSource → p.reqCount = pool.reqCount) := by
  unfold Pool.worker.route at h
  cases hs : unit.source <;> simp only [hs] at h
  case CheckSource =>
    split_ifs at h
    · simp only [Except.ok.injEq] at h
      rw [← h]
      exact ⟨rfl, rfl, le_refl _, fun _ => rfl⟩
    · split at h
      · exact absurd h (by simp)
      · split_ifs at h <;>
        · simp only [Except.ok.injEq] at h
          rw [← h]
          exact ⟨rfl, rfl, le_refl _, fun _ => rfl⟩
  case InitRandomSource =>
    split at h
    · exact absurd h (by simp)
    · rename_i p2 b2 hfz
      simp only [Except.ok.injEq] at h
      have hf := addFuzzyBaseline_frame E G _ _ p2 b2 hfz
      rw [← h, hf]
      exact ⟨rfl, rfl, le_refl _, fun _ => rfl⟩
  case InitIndexSource =>
    split at h
    · exact absurd h (by simp)
    · rename_i p2 b2 hcr
      simp only [Except.ok.injEq] at h
      obtain ⟨hf, -⟩ := doCrawl_frame E G false _ _ p2 b2 hcr
      rw [← h, hf]
      exact ⟨rfl, rfl, le_refl _, fun _ => rfl⟩
  case WordSource =>
    by_cases hcp : pool.CheckPeriod = 0
    · simp [hcp] at h
    · simp only [hcp, if_false] at h
      by_cases hA : (pool.reqCount + 1).tmod pool.CheckPeriod = 0
      · simp only [hA, if_true, Except.ok.injEq] at h
        obtain ⟨a, b, c, -⟩ := doCheck_frame
          { pool with tempCh := pool.tempCh ++ [bl], reqCount := pool.reqCount + 1 + 1 }
        rw [← h, a, b, c]
        exact ⟨rfl, rfl, by show pool.reqCount ≤ pool.reqCount + 1 + 1; omega,
          fun hne => absurd rfl hne⟩
      · simp only [hA, if_false] at h
        by_cases hep : pool.ErrPeriod = 0
        · simp [hep] at h
        · simp only [hep, if_false] at h
          by_cases hB : pool.failedCount.tmod pool.ErrPeriod = 0
          · simp only [hB, if_true, Except.ok.injEq] at h
            obtain ⟨a, b, c, -⟩ := doCheck_frame
              { pool with tempCh := pool.tempCh ++ [bl], reqCount := pool.reqCount + 1,
                          failedCount := pool.failedCount + 1 }
            rw [← h, a, b, c]
            exact ⟨rfl, rfl, by show pool.reqCount ≤ pool.reqCount + 1; omega,
              fun hne => absurd rfl hne⟩
          · simp only [hB, if_false, Except.ok.injEq] at h
            rw [← h]
            exact ⟨rfl, rfl, by show pool.reqCount ≤ pool.reqCount + 1; omega,
              fun hne => absurd rfl hne⟩
  all_goals
    simp only [Except.ok.injEq] at h
    rw [← h]
    exact ⟨rfl, rfl, le_refl _, fun _ => rfl⟩

/-- What a worker run leaves alone. -/
theorem worker_frame (E : Env) (G : Globals) (pool : Pool) (unit : Unit) (x : Exchange)
    (p : Pool) (h : Pool.worker E G pool unit x = .ok p) :
    p.BaseURL = pool.BaseURL ∧ p.Statistor.End = pool.Statistor.End ∧
      pool.reqCount ≤ p.reqCount ∧
      (unit.source ≠ .WordSource → p.reqCount = pool.reqCount) := by
  unfold Pool.worker at h
  dsimp only at h
  cases hreq : x.req with
  | none =>
    simp only [hreq, Except.ok.injEq] at h
    rw [← h]
    exact ⟨rfl, rfl, le_refl _, fun _ => rfl⟩
  | some req =>
    simp only [hreq] at h
    generalize hb : Pool.worker.build E G _ unit req x = res at h
    cases res with
    | error e => simp at h
    | ok r =>
      obtain ⟨p1, b1⟩ := r
      simp only at h
      obtain ⟨a1, a2, a3, -, -⟩ := worker_build_frame E G _ unit req x p1 b1 hb
      obtain ⟨c1, c2, c3, c4⟩ := worker_route_frame E G p1 unit _ p h
      refine ⟨c1.trans a1, c2.trans a2, ?_, ?_⟩
      · rw [a3] at c3
        exact c3
      · intro hne
        rw [c4 hne, a3]

/-- The upgrade step: the base URL has its first `http` replaced when the
redirect target of random is non-empty, parses, has the hostname of the
request URL, and turns scheme http into https; otherwise the pool is
unchanged. -/
theorem Init_upgrade_spec (E : Env) (pool : Pool) (random : Baseline) :
    ((random.RedirectURL ≠ "" ∧ ∃ rurl, E.Parse random.RedirectURL = some rurl ∧
        E.Hostname rurl = E.Hostname random.Url ∧ random.Url.Scheme = "http" ∧
        rurl.Scheme = "https") →
      Pool.Init.upgrade E pool random =
        { pool with BaseURL := StringsReplace1 pool.BaseURL "http" "https" }) ∧
    (¬ (random.RedirectURL ≠ "" ∧ ∃ rurl, E.Parse random.RedirectURL = some rurl ∧
        E.Hostname rurl = E.Hostname random.Url ∧ random.Url.Scheme = "http" ∧
        rurl.Scheme = "https") →
      Pool.Init.upgrade E pool random = pool) := by
  unfold Pool.Init.upgrade
  constructor
  · rintro ⟨hne, rurl, hparse, hcond⟩
    rw [if_pos hne, hparse]
    dsimp only
    rw [if_pos hcond]
  · intro hnot
    by_cases hne : random.RedirectURL ≠ ""
    · rw [if_pos hne]
      cases hparse : E.Parse random.RedirectURL with
      | none => rfl
      | some rurl =>
        dsimp only
        rw [if_neg (fun hcond => hnot ⟨hne, rurl, hparse, hcond⟩)]
    · rw [if_neg hne]

/-- C12: after a successful Init the random baseline is learned, and: if its
RedirectURL is non-empty, parses as a URL with the hostname of the random
request URL, the request URL has scheme http and the redirect scheme https,
the base URL has had its first "http" replaced by "https", so that a base URL
"http://" ++ rest has become "https://" ++ rest; in every other case the base
URL is unchanged. -/
theorem C12_Init_protocol_upgrade (E : Env) (G : Globals) (pool : Pool) (randPath : String)
    (xIndex xRandom : Exchange) (p : Pool)
    (h : Pool.Init E G pool randPath xIndex xRandom = .ok (p, none)) :
    ∃ random, p.random = some random ∧
      ((random.RedirectURL ≠ "" ∧ ∃ rurl, E.Parse random.RedirectURL = some rurl ∧
          E.Hostname rurl = E.Hostname random.Url ∧ random.Url.Scheme = "http" ∧
          rurl.Scheme = "https") →
        p.BaseURL = StringsReplace1 pool.BaseURL "http" "https" ∧
        ∀ rest, pool.BaseURL = "http://" ++ rest → p.BaseURL = "https://" ++ rest) ∧
      (¬ (random.RedirectURL ≠ "" ∧ ∃ rurl, E.Parse random.RedirectURL = some rurl ∧
          E.Hostname rurl = E.Hostname random.Url ∧ random.Url.Scheme = "http" ∧
          rurl.Scheme = "https") →
        p.BaseURL = pool.BaseURL) := by
  unfold Pool.Init at h
  by_cases hxi : xIndex.req = none
  · rw [if_pos hxi] at h
    exact absurd h (by simp)
  rw [if_neg hxi] at h
  cases hw1 : Pool.worker E G pool (newUnit "/" .InitIndexSource) xIndex with
  | error e => simp [hw1] at h
  | ok p1 =>
    simp only [hw1] at h
    obtain ⟨hb1, -, -, -⟩ := worker_frame E G pool _ xIndex p1 hw1
    cases hi : p1.index with
    | none => simp [hi] at h
    | some index =>
      simp only [hi] at h
      by_cases herr : index.ErrString ≠ ""
      · rw [if_pos herr] at h
        simp at h
      rw [if_neg herr] at h
      generalize hq : (if index.Status = 200 ∨ index.Status.tdiv 100 = 3 then
        { p1 with OutputCh := p1.OutputCh ++ [index], index := some index } else p1) = q at h
      have hqb : q.BaseURL = p1.BaseURL := by
        rw [← hq]
        split_ifs <;> rfl
      by_cases hxr : xRandom.req = none
      · rw [if_pos hxr] at h
        exact absurd h (by simp)
      rw [if_neg hxr] at h
      cases hw2 : Pool.worker E G q (newUnit randPath .InitRandomSource) xRandom with
      | error e => simp [hw2] at h
      | ok p2 =>
        simp only [hw2] at h
        obtain ⟨hb2, -, -, -⟩ := worker_frame E G _ _ xRandom p2 hw2
        have hbase : p2.BaseURL = pool.BaseURL := (hb2.trans hqb).trans hb1
        cases hr : p2.random with
        | none => simp [hr] at h
        | some random =>
          simp only [hr] at h
          by_cases herr2 : random.ErrString ≠ ""
          · rw [if_pos herr2] at h
            simp at h
          rw [if_neg herr2] at h
          simp only [Except.ok.injEq, Prod.mk.injEq, and_true] at h
          obtain ⟨hup, hkeep⟩ := Init_upgrade_spec E p2 random
          refine ⟨random, ?_, ?_, ?_⟩
          · by_cases hc : (random.RedirectURL ≠ "" ∧ ∃ rurl, E.Parse random.RedirectURL = some rurl ∧
                E.Hostname rurl = E.Hostname random.Url ∧ random.Url.Scheme = "http" ∧
                rurl.Scheme = "https")
            · rw [← h, hup hc]
              exact hr
            · rw [← h, hkeep hc]
              exact hr
          · intro hc
            rw [← h, hup hc]
            refine ⟨by show StringsReplace1 p2.BaseURL "http" "https" = _; rw [hbase], ?_⟩
            intro rest hrest
            show StringsReplace1 p2.BaseURL "http" "https" = _
            rw [hbase, hrest, StringsReplace1_http]
          · intro hc
            rw [← h, hkeep hc, hbase]

/-- C12 (instance): on the base URL `http://t`, with the index probe answered
by a 200 page and the random probe by a redirect to
`https://t/AbCdEfGhIjKlMnO`, Init succeeds and leaves the base URL
`https://t`. -/
theorem C12_Init_protocol_upgrade_witness :
    ∃ p, Pool.Init sampleEnv Globals.init sampleInitPool "/AbCdEfGhIjKlMnO" sampleIndexExchange
        sampleRandomExchange = .ok (p, none) ∧
      sampleInitPool.BaseURL = "http://" ++ "t" ∧ p.BaseURL = "https://" ++ "t" := by
  have hev : (Pool.Init sampleEnv Globals.init sampleInitPool "/AbCdEfGhIjKlMnO"
      sampleIndexExchange sampleRandomExchange).toOption.map
        (fun r => (r.2, r.1.random.map (fun b => (b.RedirectURL, b.Url)))) =
      some (none, some ("https://t/AbCdEfGhIjKlMnO",
        { Scheme := "http", Host := "t", Path := "/AbCdEfGhIjKlMnO" })) := rfl
  cases hI : Pool.Init sampleEnv Globals.init sampleInitPool "/AbCdEfGhIjKlMnO"
      sampleIndexExchange sampleRandomExchange with
  | error e =>
    rw [hI] at hev
    simp [Except.toOption] at hev
  | ok r =>
    obtain ⟨p, err⟩ := r
    rw [hI] at hev
    simp only [Except.toOption, Option.map_some', Option.some.injEq, Prod.mk.injEq] at hev
    obtain ⟨herr, hrand⟩ := hev
    subst herr
    obtain ⟨random, hr, hup, -⟩ := C12_Init_protocol_upgrade sampleEnv Globals.init
      sampleInitPool "/AbCdEfGhIjKlMnO" sampleIndexExchange sampleRandomExchange p hI
    rw [hr] at hrand
    simp only [Option.map_some', Option.some.injEq, Prod.mk.injEq] at hrand
    obtain ⟨hred, hurl⟩ := hrand
    have hc : random.RedirectURL ≠ "" ∧ ∃ rurl, sampleEnv.Parse random.RedirectURL = some rurl ∧
        sampleEnv.Hostname rurl = sampleEnv.Hostname random.Url ∧ random.Url.Scheme = "http" ∧
        rurl.Scheme = "https" := by
      rw [hred, hurl]
      exact ⟨by decide, { Scheme := "https", Host := "t", Path := "/AbCdEfGhIjKlMnO" },
        rfl, rfl, rfl, rfl⟩
    exact ⟨p, rfl, rfl, (hup hc).2 "t" rfl⟩

theorem NewBaseline_start_fields (E : BaselineEnv) (u : URL) (resp : HttpResponse) :
    (NewBaseline.start E u resp).Body = [] ∧
      (NewBaseline.start E u resp).BodyLength = resp.ContentLength ∧
      (NewBaseline.start E u resp).UrlString = E.URLString u := by
  unfold NewBaseline.start
  cases resp.Location <;> exact ⟨rfl, rfl, rfl⟩

theorem NewBaseline_readBody_fields (bl : baseline) (resp : HttpResponse) :
    (NewBaseline.readBody bl resp).UrlString = bl.UrlString := by
  unfold NewBaseline.readBody
  split_ifs
  · split <;> rfl
  · rfl

/-- The fingerprint step keeps the body, and returns for a URL string that is
not empty. -/
theorem NewBaseline_fingerprint_spec (E : BaselineEnv) (bl : baseline) :
    (∀ b, NewBaseline.fingerprint E bl = .ok b → b.Body = bl.Body) ∧
    (bl.UrlString ≠ "" → ∃ b, NewBaseline.fingerprint E bl = .ok b) := by
  unfold NewBaseline.fingerprint
  dsimp only
  constructor
  · intro b h
    by_cases hlen : bl.Body.length > 0
    · rw [if_pos hlen] at h
      by_cases hurl : bl.UrlString = ""
      · rw [if_pos hurl] at h
        exact absurd h (by simp)
      · rw [if_neg hurl] at h
        split_ifs at h <;>
        · simp only [Except.ok.injEq] at h
          rw [← h]
    · rw [if_neg hlen] at h
      simp only [Except.ok.injEq] at h
      rw [← h]
  · intro hne
    by_cases hlen : bl.Body.length > 0
    · rw [if_pos hlen, if_neg hne]
      split_ifs
      · exact ⟨_, rfl⟩
      · exact ⟨_, rfl⟩
    · rw [if_neg hlen]
      exact ⟨_, rfl⟩

/-- The body `NewBaseline` keeps is the one its read step leaves. -/
theorem NewBaseline_body (E : BaselineEnv) (u : URL) (resp : HttpResponse) (bl : baseline)
    (h : NewBaseline E u resp = .ok bl) :
    bl.Body = (NewBaseline.readBody (NewBaseline.start E u resp) resp).Body := by
  unfold NewBaseline at h
  dsimp only at h
  cases hfp : NewBaseline.fingerprint E (NewBaseline.readBody (NewBaseline.start E u resp) resp) with
  | error e => simp [hfp] at h
  | ok b =>
    simp only [hfp, Except.ok.injEq] at h
    rw [← h]
    exact (NewBaseline_fingerprint_spec E _).1 b hfp

/-- The read step: nothing is read unless the content length is positive;
otherwise the first 20480 bytes are kept when the stream has them, the whole
stream when it is shorter, not empty and ends with end-of-stream, and
nothing when it is empty or breaks off with an error. -/
theorem NewBaseline_readBody_spec (b0 : baseline) (resp : HttpResponse) (hb0 : b0.Body = []) :
    (NewBaseline.readBody b0 resp).Body =
      if b0.BodyLength > 0 then
        if 20480 ≤ resp.Body.bytes.length then resp.Body.bytes.take 20480
        else if resp.Body.fault = none then resp.Body.bytes
        else []
      else [] := by
  unfold NewBaseline.readBody
  by_cases hlen : b0.BodyLength > 0
  · rw [if_pos hlen, if_pos hlen]
    by_cases hfull : 20480 ≤ resp.Body.bytes.length
    · have hR : ReadFull resp.Body 20480 = (resp.Body.bytes.take 20480, 20480, none) := by
        unfold ReadFull
        rw [if_pos hfull]
      rw [hR, if_pos hfull]
    · rw [if_neg hfull]
      cases hfault : resp.Body.fault with
      | some msg =>
        have hR : ReadFull resp.Body 20480 =
            (resp.Body.bytes ++ List.replicate (20480 - resp.Body.bytes.length) 0,
              resp.Body.bytes.length, some (.other msg)) := by
          unfold ReadFull
          rw [if_neg hfull, hfault]
        rw [hR, if_neg (by simp)]
        exact hb0
      | none =>
        rw [if_pos rfl]
        by_cases hzero : resp.Body.bytes.length = 0
        · have hR : ReadFull resp.Body 20480 =
              (resp.Body.bytes ++ List.replicate (20480 - resp.Body.bytes.length) 0,
                resp.Body.bytes.length, some .EOF) := by
            unfold ReadFull
            rw [if_neg hfull, hfault]
            dsimp only
            rw [if_pos hzero]
          rw [hR]
          dsimp only
          rw [hb0, List.length_eq_zero.1 hzero]
        · have hR : ReadFull resp.Body 20480 =
              (resp.Body.bytes ++ List.replicate (20480 - resp.Body.bytes.length) 0,
                resp.Body.bytes.length, some .ErrUnexpectedEOF) := by
            unfold ReadFull
            rw [if_neg hfull, hfault]
            dsimp only
            rw [if_neg hzero]
          rw [hR]
          dsimp only
          exact List.take_left' rfl
  · rw [if_neg hlen, if_neg hlen, hb0]

/-- C13 (refuted as stated): for an answer of unknown content length (-1)
whose stream holds two bytes, the baseline's Body is empty, not the first two
bytes of the stream. -/
theorem C13_unread_body_counterexample :
    sampleChunkedResponse.Body.bytes.length = 2 ∧
    (NewBaseline sampleBaselineEnv { Scheme := "http", Host := "t", Path := "/" }
        sampleChunkedResponse).toOption.map (fun bl => bl.Body) = some [] ∧
    sampleChunkedResponse.Body.bytes.take (min 2 20480) = [104, 105] := by
  refine ⟨rfl, rfl, rfl⟩

/-- C13 (amended): the Body of a baseline never exceeds 20480 bytes; when the
content length of the response is positive and the body stream holds n bytes
and ends with end-of-stream, Body is the first min(n, 20480) bytes of the
stream, so a stream shorter than 20480 bytes is kept in full; when the
content length is not positive the stream is not read and Body is empty; a
stream that breaks off with an error before 20480 bytes leaves Body empty;
NewBaseline returns whenever the URL string is not empty. -/
theorem C13_body_truncation (E : BaselineEnv) (u : URL) (resp : HttpResponse) :
    (∀ bl, NewBaseline E u resp = .ok bl →
      bl.Body.length ≤ 20480 ∧
      (resp.ContentLength ≤ 0 → bl.Body = []) ∧
      (0 < resp.ContentLength → resp.Body.fault = none →
        bl.Body = resp.Body.bytes.take 20480 ∧
        bl.Body.length = min resp.Body.bytes.length 20480 ∧
        (resp.Body.bytes.length < 20480 → bl.Body = resp.Body.bytes)) ∧
      (0 < resp.ContentLength → resp.Body.fault ≠ none → resp.Body.bytes.length < 20480 →
        bl.Body = [])) ∧
    (E.URLString u ≠ "" → ∃ bl, NewBaseline E u resp = .ok bl) := by
  obtain ⟨hb0, hlen0, hurl0⟩ := NewBaseline_start_fields E u resp
  constructor
  · intro bl h
    have hbody := NewBaseline_body E u resp bl h
    rw [NewBaseline_readBody_spec _ resp hb0, hlen0] at hbody
    refine ⟨?_, ?_, ?_, ?_⟩
    · rw [hbody]
      split_ifs
      · rw [List.length_take]
        exact Nat.min_le_left _ _
      · omega
      · simp
      · simp
    · intro hle
      rw [hbody, if_neg (by omega)]
    · intro hpos hfault
      rw [if_pos hpos, hfault] at hbody
      simp only [if_true] at hbody
      by_cases hfull : 20480 ≤ resp.Body.bytes.length
      · rw [if_pos hfull] at hbody
        refine ⟨hbody, ?_, fun hlt => absurd hfull (by omega)⟩
        rw [hbody, List.length_take, Nat.min_comm]
      · rw [if_neg hfull] at hbody
        have htake : resp.Body.bytes.take 20480 = resp.Body.bytes :=
          List.take_of_length_le (by omega)
        refine ⟨by rw [hbody, htake], ?_, fun _ => hbody⟩
        rw [hbody, Nat.min_eq_left (by omega)]
    · intro hpos hfault hlt
      rw [hbody, if_pos hpos, if_neg (by omega), if_neg hfault]
  · intro hne
    have hurl : (NewBaseline.readBody (NewBaseline.start E u resp) resp).UrlString ≠ "" := by
      rw [NewBaseline_readBody_fields, hurl0]
      exact hne
    obtain ⟨b, hb⟩ := (NewBaseline_fingerprint_spec E _).2 hurl
    exact ⟨_, by unfold NewBaseline; dsimp only; rw [hb]⟩

/-- C13 (instance): an answer that announces its two bytes and ends with
end-of-stream is kept in full. -/
theorem C13_body_truncation_witness :
    (sampleBaselineEnv.URLString { Scheme := "http", Host := "t", Path := "/" } ≠ "" ∧
      0 < sampleShortResponse.ContentLength ∧ sampleShortResponse.Body.fault = none ∧
      sampleShortResponse.Body.bytes.length < 20480) ∧
    ∃ bl, NewBaseline sampleBaselineEnv { Scheme := "http", Host := "t", Path := "/" }
        sampleShortResponse = .ok bl ∧ bl.Body = [104, 105] := by
  have hne : sampleBaselineEnv.URLString { Scheme := "http", Host := "t", Path := "/" } ≠ "" := by
    decide
  refine ⟨⟨hne, by decide, rfl, by decide⟩, ?_⟩
  obtain ⟨bl, hbl⟩ := (C13_body_truncation sampleBaselineEnv
    { Scheme := "http", Host := "t", Path := "/" } sampleShortResponse).2 hne
  obtain ⟨-, -, hread, -⟩ := (C13_body_truncation sampleBaselineEnv
    { Scheme := "http", Host := "t", Path := "/" } sampleShortResponse).1 bl hbl
  exact ⟨bl, hbl, (hread (by decide) rfl).2.2 (by decide)⟩

theorem letters_getD_mem (idx : Nat) (h : idx < letters.length) :
    letters.toList.getD idx 'a' ∈ letters.toList := by
  have h' : idx < letters.toList.length := h
  rw [List.getD_eq_getElem _ _ h']
  exact List.getElem_mem _

theorem letterIdMask_and (cache : Nat) : cache &&& letterIdMask = cache % 64 :=
  Nat.and_pow_two_sub_one_eq_mod cache 6

theorem letterIdBits_shift (cache : Nat) : cache >>> letterIdBits = cache / 64 :=
  Nat.shiftRight_eq_div_pow cache 6

/-- The buffer invariant of the loop of `RandPath`: 16 places, a slash in
front, letters in every place above `i`; when the loop returns, every place
from 1 on holds a letter. -/
theorem RandPath_loop_letters (fuel : Nat) :
    ∀ (src : List Nat) (i cache remain : Nat) (b r : List Char),
      RandPath.loop fuel src i cache remain b = some r →
      b.length = 16 → b[0]? = some '/' →
      (∀ k, i < k → k < 16 → ∃ c ∈ letters.toList, b[k]? = some c) →
      r.length = 16 ∧ r[0]? = some '/' ∧
        ∀ k, 0 < k → k < 16 → ∃ c ∈ letters.toList, r[k]? = some c := by
  induction fuel with
  | zero =>
    intro src i cache remain b r h
    simp [RandPath.loop] at h
  | succ fuel ih =>
    intro src i cache remain b r h hlen hslash hletters
    unfold RandPath.loop at h
    by_cases hi : i ≥ 1
    · rw [if_pos hi] at h
      dsimp only at h
      split at h
      · exact absurd h (by simp)
      · rename_i cache' remain' src' _
        by_cases hidx : cache' &&& letterIdMask < letters.length
        · rw [if_pos hidx] at h
          refine ih _ _ _ _ _ _ h ?_ ?_ ?_
          · rw [List.length_set]
            exact hlen
          · rw [List.getElem?_set_ne (by omega)]
            exact hslash
          · intro k hk hk16
            by_cases hki : k = i
            · subst hki
              refine ⟨_, letters_getD_mem _ hidx, ?_⟩
              rw [List.getElem?_set_self (by omega)]
            · rw [List.getElem?_set_ne (by omega)]
              exact hletters k (by omega) hk16
        · rw [if_neg hidx] at h
          exact ih _ _ _ _ _ _ h hlen hslash hletters
    · rw [if_neg hi] at h
      simp only [Option.some.injEq] at h
      subst h
      exact ⟨hlen, hslash, fun k hk hk16 => hletters k (by omega) hk16⟩

/-- The loop of `RandPath` returns when the cache and the source still hold
at least `i` usable indices. -/
theorem RandPath_loop_returns (fuel : Nat) :
    ∀ (src : List Nat) (i cache remain : Nat) (b : List Char),
      remain + 10 * src.length + 1 ≤ fuel →
      i ≤ RandPath.usable cache remain + (src.map (fun v => RandPath.usable v 10)).sum →
      ∃ r, RandPath.loop fuel src i cache remain b = some r := by
  induction fuel with
  | zero =>
    intro src i cache remain b hfuel
    omega
  | succ fuel ih =>
    intro src i cache remain b hfuel husable
    unfold RandPath.loop
    by_cases hi : i ≥ 1
    · rw [if_pos hi]
      dsimp only
      have step : ∀ (src' : List Nat) (cache' remain' : Nat), 1 ≤ remain' →
          remain' + 10 * src'.length ≤ fuel →
          i ≤ RandPath.usable cache' remain' + (src'.map (fun v => RandPath.usable v 10)).sum →
          ∃ r, (if cache' &&& letterIdMask < letters.length then
              RandPath.loop fuel src' (i - 1) (cache' >>> letterIdBits) (remain' - 1)
                (b.set i (letters.toList.getD (cache' &&& letterIdMask) 'a'))
            else RandPath.loop fuel src' i (cache' >>> letterIdBits) (remain' - 1) b) = some r := by
        intro src' cache' remain' hr hf hu
        obtain ⟨m, rfl⟩ : ∃ m, remain' = m + 1 := ⟨remain' - 1, by omega⟩
        rw [letterIdMask_and, letterIdBits_shift]
        have hunfold : RandPath.usable cache' (m + 1) =
            (if cache' % 64 < 52 then 1 else 0) + RandPath.usable (cache' / 64) m := rfl
        rw [hunfold] at hu
        have hlen : letters.length = 52 := by decide
        rw [hlen]
        by_cases hidx : cache' % 64 < 52
        · rw [if_pos hidx]
          rw [if_pos hidx] at hu
          exact ih _ _ _ _ _ (by simp only [Nat.add_sub_cancel]; omega)
            (by simp only [Nat.add_sub_cancel]; omega)
        · rw [if_neg hidx]
          rw [if_neg hidx] at hu
          exact ih _ _ _ _ _ (by simp only [Nat.add_sub_cancel]; omega)
            (by simp only [Nat.add_sub_cancel]; omega)
      by_cases hrem : remain = 0
      · rw [if_pos hrem]
        subst hrem
        cases src with
        | nil =>
          have h0 : RandPath.usable cache 0 = 0 := rfl
          simp only [h0, List.map_nil, List.sum_nil] at husable
          omega
        | cons v rest =>
          dsimp only
          have h0 : RandPath.usable cache 0 = 0 := rfl
          simp only [h0, List.map_cons, List.sum_cons, Nat.zero_add] at husable
          simp only [List.length_cons] at hfuel
          have hmax : letterIdMax = 10 := by decide
          rw [hmax]
          exact step rest v 10 (by omega) (by omega) husable
      · rw [if_neg hrem]
        dsimp only
        exact step src cache remain (by omega) (by omega) husable
    · rw [if_neg hi]
      exact ⟨b, rfl⟩

/-- The loop of `RandPath` looks at the lowest `remain` six-bit groups of the
cache and at the lowest ten groups of each value of the source. -/
theorem RandPath_loop_low_bits (fuel : Nat) :
    ∀ (src : List Nat) (i cache cache' remain : Nat) (b : List Char),
      remain ≤ 10 → cache % 64 ^ remain = cache' % 64 ^ remain →
      RandPath.loop fuel (src.map (fun v => v % 2 ^ 60)) i cache' remain b =
        RandPath.loop fuel src i cache remain b := by
  induction fuel with
  | zero =>
    intro src i cache cache' remain b _ _
    rfl
  | succ fuel ih =>
    intro src i cache cache' remain b hrem hmod
    unfold RandPath.loop
    by_cases hi : i ≥ 1
    · rw [if_pos hi, if_pos hi]
      dsimp only
      have step : ∀ (src0 : List Nat) (c c' m : Nat), m + 1 ≤ 10 →
          c % 64 ^ (m + 1) = c' % 64 ^ (m + 1) →
          (if c' &&& letterIdMask < letters.length then
              RandPath.loop fuel (src0.map (fun v => v % 2 ^ 60)) (i - 1) (c' >>> letterIdBits)
                (m + 1 - 1) (b.set i (letters.toList.getD (c' &&& letterIdMask) 'a'))
            else RandPath.loop fuel (src0.map (fun v => v % 2 ^ 60)) i (c' >>> letterIdBits)
              (m + 1 - 1) b) =
          (if c &&& letterIdMask < letters.length then
              RandPath.loop fuel src0 (i - 1) (c >>> letterIdBits) (m + 1 - 1)
                (b.set i (letters.toList.getD (c &&& letterIdMask) 'a'))
            else RandPath.loop fuel src0 i (c >>> letterIdBits) (m + 1 - 1) b) := by
        intro src0 c c' m hm hc
        have hlow : c % 64 = c' % 64 := by
          have h1 : c % 64 ^ (m + 1) % 64 = c % 64 :=
            Nat.mod_mod_of_dvd c (dvd_pow_self 64 (Nat.succ_ne_zero m))
          have h2 : c' % 64 ^ (m + 1) % 64 = c' % 64 :=
            Nat.mod_mod_of_dvd c' (dvd_pow_self 64 (Nat.succ_ne_zero m))
          rw [← h1, ← h2, hc]
        have hhigh : c / 64 % 64 ^ m = c' / 64 % 64 ^ m := by
          rw [← Nat.mod_mul_right_div_self, ← Nat.mod_mul_right_div_self, ← pow_succ', hc]
        simp only [letterIdMask_and, letterIdBits_shift, Nat.add_sub_cancel, hlow]
        split_ifs
        · exact ih _ _ _ _ _ _ (by omega) hhigh
        · exact ih _ _ _ _ _ _ (by omega) hhigh
      by_cases hr0 : remain = 0
      · rw [if_pos hr0, if_pos hr0]
        cases src with
        | nil => rfl
        | cons v rest =>
          have hmax : letterIdMax = 9 + 1 := by decide
          simp only [List.map_cons]
          rw [hmax]
          exact step rest v (v % 2 ^ 60) 9 (by omega) (by
            have : (2 : Nat) ^ 60 = 64 ^ (9 + 1) := by norm_num
            rw [this, Nat.mod_mod])
      · rw [if_neg hr0, if_neg hr0]
        obtain ⟨m, rfl⟩ : ∃ m, remain = m + 1 := ⟨remain - 1, by omega⟩
        exact step src cache cache' m hrem hmod
    · rw [if_neg hi, if_neg hi]

theorem utf8ByteSize_go_ascii (l : List Char) (h : ∀ c ∈ l, c.utf8Size = 1) :
    String.utf8ByteSize.go l = l.length := by
  induction l with
  | nil => rfl
  | cons c cs ih =>
    simp only [String.utf8ByteSize.go, List.length_cons]
    rw [ih (fun c' hc' => h c' (List.mem_cons_of_mem _ hc')), h c (List.mem_cons_self _ _)]

theorem letters_ascii : ∀ c ∈ letters.toList, c.utf8Size = 1 ∧ c.isAlpha = true := by
  decide

/-- C15: when RandPath returns, its result is a slash followed by 15
characters of `letters` (ASCII letters a-z, A-Z), 16 bytes in all; it returns
whenever the source holds 15 indices below 52 among the lowest ten six-bit
groups of its values; only those ten groups of each value are looked at; and
a round whose index is 52 or more moves on to the next group without writing
and without advancing. -/
theorem C15_RandPath_shape (src : List Nat) :
    (∀ s, RandPath src = some s →
      ∃ path : List Char, s = String.mk ('/' :: path) ∧ path.length = 15 ∧
        (∀ c ∈ path, c ∈ letters.toList ∧ c.isAlpha = true) ∧ s.utf8ByteSize = 16) ∧
    (15 ≤ (src.map (fun v => RandPath.usable v 10)).sum → ∃ s, RandPath src = some s) ∧
    RandPath (src.map (fun v => v % 2 ^ 60)) = RandPath src ∧
    (∀ (fuel : Nat) (rest : List Nat) (i cache remain : Nat) (b : List Char),
      1 ≤ i → 1 ≤ remain → 52 ≤ cache &&& letterIdMask →
      RandPath.loop (fuel + 1) rest i cache remain b =
        RandPath.loop fuel rest i (cache >>> letterIdBits) (remain - 1) b) := by
  have hmax : letterIdMax = 10 := by decide
  refine ⟨?_, ?_, ?_, ?_⟩
  · intro s hs
    cases src with
    | nil => simp [RandPath] at hs
    | cons v rest =>
      simp only [RandPath, Option.map_eq_some'] at hs
      obtain ⟨r, hr, rfl⟩ := hs
      obtain ⟨hlen, hslash, hletters⟩ := RandPath_loop_letters _ _ _ _ _ _ r hr
        (by simp) (by simp) (fun k hk hk16 => absurd hk16 (by omega))
      cases r with
      | nil => simp at hlen
      | cons c0 path =>
        simp only [List.getElem?_cons_zero, Option.some.injEq] at hslash
        subst hslash
        have hpath : ∀ c ∈ path, c ∈ letters.toList := by
          intro c hc
          obtain ⟨n, hn, hget⟩ := List.mem_iff_getElem.1 hc
          simp only [List.length_cons] at hlen
          obtain ⟨c', hc', hk⟩ := hletters (n + 1) (by omega) (by omega)
          rw [List.getElem?_cons_succ, List.getElem?_eq_getElem hn, hget] at hk
          simp only [Option.some.injEq] at hk
          rw [hk]
          exact hc'
        refine ⟨path, rfl, by simpa using hlen, fun c hc => ⟨hpath c hc, (letters_ascii c (hpath c hc)).2⟩, ?_⟩
        show String.utf8ByteSize.go ('/' :: path) = 16
        rw [utf8ByteSize_go_ascii, hlen]
        intro c hc
        rcases List.mem_cons.1 hc with h0 | h1
        · rw [h0]
          decide
        · exact (letters_ascii c (hpath c h1)).1
  · intro husable
    cases src with
    | nil => simp at husable
    | cons v rest =>
      simp only [List.map_cons, List.sum_cons] at husable
      obtain ⟨r, hr⟩ := RandPath_loop_returns (letterIdMax * (rest.length + 1) + 1) rest 15 v
        letterIdMax ('/' :: List.replicate 15 (Char.ofNat 0))
        (by rw [hmax]; omega) (by rw [hmax]; exact husable)
      exact ⟨String.mk r, by simp only [RandPath, hr, Option.map_some']⟩
  · cases src with
    | nil => rfl
    | cons v rest =>
      simp only [RandPath, List.map_cons, List.length_map]
      rw [RandPath_loop_low_bits _ rest 15 v (v % 2 ^ 60) letterIdMax _ (by rw [hmax]) (by
        rw [hmax]
        have : (2 : Nat) ^ 60 = 64 ^ 10 := by norm_num
        rw [this, Nat.mod_mod])]
  · intro fuel rest i cache remain b hi hremain hidx
    have hlen : letters.length = 52 := by decide
    conv_lhs => unfold RandPath.loop
    rw [if_pos hi, if_neg (by omega : ¬ remain = 0)]
    dsimp only
    rw [if_neg (by rw [hlen]; omega)]

/-- The invariant of the pool at work. While `reqCount` is below the offset
it equals one plus the number `k` of words read and no WordSource unit waits;
once it has reached the offset it stays there and the next word has a number
of at least the offset. Along any admissible sequence of steps that returns,
the end cursor grows by the number of words read and the WordSource units
handed over are the expected ones. -/
theorem Run_steps_invariant (E : Env) (G : Globals) (offset limit end0 : Int)
    (steps : List Run.Step) :
    ∀ (st : Run.State) (k : Nat) (st' : Run.State),
      (∀ s ∈ steps, s.admissible) → st.stopped = false →
      st.pool.Statistor.End = end0 + k →
      ((st.pool.reqCount = 1 + (k : Int) ∧ 1 + (k : Int) < offset ∧
          ∀ u ∈ st.waiting, u.source ≠ .WordSource) ∨
        (offset ≤ st.pool.reqCount ∧ offset ≤ (k : Int) + 1)) →
      Pool.Run.steps E G offset limit st steps = .ok st' →
      st'.pool.Statistor.End = end0 + k + (Run.wordsRead steps).length ∧
      st'.invoked.filter (fun u => decide (u.source = .WordSource)) =
        st.invoked.filter (fun u => decide (u.source = .WordSource)) ++
          Run.expected offset limit end0 k (Run.wordsRead steps) := by
  induction steps with
  | nil =>
    intro st k st' _ _ hend _ h
    simp only [Pool.Run.steps, Except.ok.injEq] at h
    subst h
    simp [Run.wordsRead, Run.expected, hend]
  | cons s rest ih =>
    intro st k st' hadm hstop hend hphase h
    have hadmrest : ∀ s' ∈ rest, s'.admissible := fun s' hs' => hadm s' (List.mem_cons_of_mem _ hs')
    have hadms : s.admissible := hadm s (List.mem_cons_self _ _)
    simp only [Pool.Run.steps] at h
    cases hstep : Pool.Run.step E G offset limit st s with
    | error e => simp [hstep] at h
    | ok st1 =>
      simp only [hstep] at h
      -- a step that reads no word
      have keep : Run.wordsRead (s :: rest) = Run.wordsRead rest →
          st1.stopped = false → st1.pool.Statistor.End = st.pool.Statistor.End →
          ((st1.pool.reqCount = 1 + (k : Int) ∧ 1 + (k : Int) < offset ∧
              ∀ u ∈ st1.waiting, u.source ≠ .WordSource) ∨
            (offset ≤ st1.pool.reqCount ∧ offset ≤ (k : Int) + 1)) →
          st1.invoked.filter (fun u => decide (u.source = .WordSource)) =
            st.invoked.filter (fun u => decide (u.source = .WordSource)) →
          st'.pool.Statistor.End = end0 + k + (Run.wordsRead (s :: rest)).length ∧
          st'.invoked.filter (fun u => decide (u.source = .WordSource)) =
            st.invoked.filter (fun u => decide (u.source = .WordSource)) ++
              Run.expected offset limit end0 k (Run.wordsRead (s :: rest)) := by
        intro hw hs1 he1 hp1 hi1
        obtain ⟨r1, r2⟩ := ih st1 k st' hadmrest hs1 (he1.trans hend) hp1 h
        rw [hw, ← hi1]
        exact ⟨r1, r2⟩
      -- a step that hands over a unit which is not a WordSource unit
      have handover : ∀ (pool : Pool) (unit : Unit), unit.source ≠ .WordSource →
          pool.Statistor.End = st.pool.Statistor.End → pool.reqCount = st.pool.reqCount →
          st1 = { st with pool := pool, waiting := st.waiting ++ [unit],
                          invoked := st.invoked ++ [unit], stopped := false } →
          Run.wordsRead (s :: rest) = Run.wordsRead rest →
          st'.pool.Statistor.End = end0 + k + (Run.wordsRead (s :: rest)).length ∧
          st'.invoked.filter (fun u => decide (u.source = .WordSource)) =
            st.invoked.filter (fun u => decide (u.source = .WordSource)) ++
              Run.expected offset limit end0 k (Run.wordsRead (s :: rest)) := by
        intro pool unit hunit he hr hst1 hw
        subst hst1
        refine keep hw rfl he ?_ ?_
        · rcases hphase with ⟨a, b, c⟩ | ⟨a, b⟩
          · refine Or.inl ⟨hr.trans a, b, ?_⟩
            intro u hu
            rcases List.mem_append.1 hu with hm | hm
            · exact c u hm
            · rw [List.mem_singleton.1 hm]
              exact hunit
          · exact Or.inr ⟨by rw [hr]; exact a, b⟩
        · simp [List.filter_append, hunit]
      cases s with
      | work n x =>
        simp only [Pool.Run.step] at hstep
        cases hwait : st.waiting[n]? with
        | none =>
          simp only [hwait, Except.ok.injEq] at hstep
          subst hstep
          exact keep rfl hstop rfl hphase rfl
        | some unit =>
          simp only [hwait] at hstep
          cases hwork : st.pool.worker E G unit x with
          | error e => simp [hwork] at hstep
          | ok pool =>
            simp only [hwork, Except.ok.injEq] at hstep
            subst hstep
            obtain ⟨-, fe, fmono, fsame⟩ := worker_frame E G st.pool unit x pool hwork
            have hmem : unit ∈ st.waiting := List.getElem?_mem hwait
            refine keep rfl hstop fe ?_ rfl
            rcases hphase with ⟨a, b, c⟩ | ⟨a, b⟩
            · refine Or.inl ⟨(fsame (c unit hmem)).trans a, b, ?_⟩
              intro u hu
              exact c u (List.mem_of_mem_eraseIdx hu)
            · exact Or.inr ⟨le_trans a fmono, b⟩
      | select ev =>
        simp only [Pool.Run.step, hstop, Bool.false_eq_true, if_false] at hstep
        cases ev with
        | closeCh => exact absurd hadms (by simp [Run.Step.admissible])
        | ctxDone => exact absurd hadms (by simp [Run.Step.admissible])
        | poolCtxDone => exact absurd hadms (by simp [Run.Step.admissible])
        | addition unit ok =>
          have hunit : unit.source ≠ .WordSource := hadms
          cases ok with
          | false =>
            simp only [Pool.Run.select, if_true, Except.ok.injEq] at hstep
            subst hstep
            exact keep rfl rfl rfl hphase rfl
          | true =>
            simp only [Pool.Run.select, Bool.true_eq_false, if_false, Except.ok.injEq] at hstep
            exact handover st.pool unit hunit rfl rfl hstep.symm rfl
        | check source rand =>
          have hsource : source ≠ .WordSource := hadms
          simp only [Pool.Run.select] at hstep
          split_ifs at hstep
          · simp only [Except.ok.injEq] at hstep
            refine handover _ (newUnit rand source) hsource ?_ ?_ hstep.symm rfl <;> rfl
          · simp only [Except.ok.injEq] at hstep
            refine handover _ (newUnit rand source) hsource ?_ ?_ hstep.symm rfl <;> rfl
          · simp only [Except.ok.injEq] at hstep
            subst hstep
            exact keep rfl rfl rfl hphase rfl
        | word u ok =>
          cases ok with
          | false =>
            simp only [Pool.Run.select, if_true, Except.ok.injEq] at hstep
            subst hstep
            exact keep rfl rfl rfl hphase rfl
          | true =>
            simp only [Pool.Run.select, Bool.true_eq_false, if_false] at hstep
            have hwords : Run.wordsRead (Run.Step.select (Run.Event.word u true) :: rest) =
                u :: Run.wordsRead rest := rfl
            rw [hwords]
            simp only [List.length_cons, Run.expected]
            by_cases hskip : st.pool.reqCount < offset
            · simp only [hskip, if_true, Except.ok.injEq] at hstep
              subst hstep
              have hk : 1 + (k : Int) < offset := by
                rcases hphase with ⟨a, b, -⟩ | ⟨a, -⟩
                · exact b
                · omega
              have hreq : st.pool.reqCount = 1 + (k : Int) := by
                rcases hphase with ⟨a, -, -⟩ | ⟨a, -⟩
                · exact a
                · omega
              have hwaiting : ∀ u ∈ st.waiting, u.source ≠ .WordSource := by
                rcases hphase with ⟨-, -, c⟩ | ⟨a, -⟩
                · exact c
                · omega
              obtain ⟨r1, r2⟩ := ih _ (k + 1) st' hadmrest rfl
                (by show st.pool.Statistor.End + 1 = end0 + ((k + 1 : Nat) : Int)
                    rw [hend]; push_cast; ring)
                (by
                  by_cases hnext : 1 + ((k + 1 : Nat) : Int) < offset
                  · exact Or.inl ⟨by show st.pool.reqCount + 1 = _; rw [hreq]; push_cast; ring,
                      hnext, hwaiting⟩
                  · refine Or.inr ⟨?_, ?_⟩
                    · show offset ≤ st.pool.reqCount + 1
                      push_cast at hnext
                      omega
                    · push_cast at hnext ⊢
                      omega) h
              have hno : ¬ (max offset 1 ≤ ((k + 1 : Nat) : Int) ∧
                  end0 + ((k + 1 : Nat) : Int) ≤ limit ∧ u ≠ "") := by
                rintro ⟨hmax, -, -⟩
                have := le_trans (le_max_left offset 1) hmax
                push_cast at this
                omega
              rw [if_neg hno, List.nil_append]
              refine ⟨?_, r2⟩
              rw [r1]
              push_cast
              ring
            · simp only [hskip, if_false] at hstep
              have hoff : offset ≤ st.pool.reqCount ∧ offset ≤ (k : Int) + 1 := by
                rcases hphase with ⟨a, b, -⟩ | ⟨a, b⟩
                · omega
                · exact ⟨a, b⟩
              have hmax : max offset 1 ≤ ((k + 1 : Nat) : Int) := by
                push_cast
                exact max_le hoff.2 (by omega)
              have hend1 : st.pool.Statistor.End + 1 = end0 + ((k + 1 : Nat) : Int) := by
                rw [hend]
                push_cast
                ring
              have hphase1 : (st.pool.reqCount = 1 + ((k + 1 : Nat) : Int) ∧
                  1 + ((k + 1 : Nat) : Int) < offset ∧
                  ∀ u ∈ st.waiting, u.source ≠ .WordSource) ∨
                  (offset ≤ st.pool.reqCount ∧ offset ≤ ((k + 1 : Nat) : Int) + 1) :=
                Or.inr ⟨hoff.1, by push_cast; omega⟩
              by_cases hlimit : st.pool.Statistor.End + 1 > limit
              · simp only [hlimit, if_true, Except.ok.injEq] at hstep
                subst hstep
                obtain ⟨r1, r2⟩ := ih _ (k + 1) st' hadmrest rfl (by exact hend1) (by exact hphase1) h
                have hno : ¬ (max offset 1 ≤ ((k + 1 : Nat) : Int) ∧
                    end0 + ((k + 1 : Nat) : Int) ≤ limit ∧ u ≠ "") := by
                  rintro ⟨-, hl, -⟩
                  rw [← hend1] at hl
                  omega
                rw [if_neg hno, List.nil_append]
                refine ⟨?_, r2⟩
                rw [r1]
                push_cast
                ring
              · simp only [hlimit, if_false] at hstep
                by_cases hempty : u = ""
                · simp only [hempty, if_true, Except.ok.injEq] at hstep
                  subst hstep
                  obtain ⟨r1, r2⟩ := ih _ (k + 1) st' hadmrest rfl (by exact hend1) (by exact hphase1) h
                  have hno : ¬ (max offset 1 ≤ ((k + 1 : Nat) : Int) ∧
                      end0 + ((k + 1 : Nat) : Int) ≤ limit ∧ u ≠ "") := by
                    rintro ⟨-, -, hne⟩
                    exact hne hempty
                  rw [if_neg hno, List.nil_append]
                  refine ⟨?_, r2⟩
                  rw [r1]
                  push_cast
                  ring
                · simp only [hempty, if_false, Except.ok.injEq] at hstep
                  subst hstep
                  obtain ⟨r1, r2⟩ := ih _ (k + 1) st' hadmrest rfl (by exact hend1)
                    (by exact Or.inr ⟨hoff.1, by push_cast; omega⟩) h
                  have hyes : max offset 1 ≤ ((k + 1 : Nat) : Int) ∧
                      end0 + ((k + 1 : Nat) : Int) ≤ limit ∧ u ≠ "" := by
                    refine ⟨hmax, ?_, hempty⟩
                    rw [← hend1]
                    omega
                  rw [if_pos hyes]
                  refine ⟨?_, ?_⟩
                  · rw [r1]
                    push_cast
                    ring
                  · rw [r2]
                    simp [List.filter_append, newUnit]

/-- The expected units, written with the numbers of the words. -/
theorem Run_expected_enumFrom (offset limit end0 : Int) (words : List String) :
    ∀ k : Nat, Run.expected offset limit end0 k words =
      ((words.enumFrom k).filter (fun p =>
          decide (max offset 1 ≤ ((p.1 + 1 : Nat) : Int) ∧
            end0 + ((p.1 + 1 : Nat) : Int) ≤ limit ∧ p.2 ≠ ""))).map
        (fun p => newUnit p.2 .WordSource) := by
  induction words with
  | nil => intro k; rfl
  | cons u rest ih =>
    intro k
    simp only [Run.expected, List.enumFrom_cons, List.filter_cons, ih (k + 1)]
    by_cases hc : max offset 1 ≤ ((k + 1 : Nat) : Int) ∧
        end0 + ((k + 1 : Nat) : Int) ≤ limit ∧ u ≠ ""
    · simp only [hc, and_self, if_true, decide_True, List.map_cons, List.singleton_append,
        ne_eq, not_false_eq_true]
    · simp only [hc, if_false, decide_False, List.nil_append, Bool.false_eq_true]

/-- The rounds of the `select` alone never stop the program: a sequence of
`select` steps returns. -/
theorem Run_select_returns (E : Env) (G : Globals) (offset limit : Int) (steps : List Run.Step) :
    ∀ st : Run.State, (∀ s ∈ steps, ∃ ev, s = Run.Step.select ev) →
      ∃ st', Pool.Run.steps E G offset limit st steps = .ok st' := by
  induction steps with
  | nil => intro st _; exact ⟨st, rfl⟩
  | cons s rest ih =>
    intro st hsel
    obtain ⟨ev, rfl⟩ := hsel s (List.mem_cons_self _ _)
    have hrest : ∀ s ∈ rest, ∃ ev, s = Run.Step.select ev :=
      fun s hs => hsel s (List.mem_cons_of_mem _ hs)
    have hstep : ∃ st1, Pool.Run.step E G offset limit st (.select ev) = .ok st1 := by
      simp only [Pool.Run.step]
      by_cases hs : st.stopped = true
      · rw [if_pos hs]; exact ⟨_, rfl⟩
      · rw [if_neg hs]
        rcases hsel : Pool.Run.select offset limit st.pool ev with ⟨pool, unit, stop⟩
        cases unit with
        | none => exact ⟨_, rfl⟩
        | some unit => exact ⟨_, rfl⟩
    obtain ⟨st1, h1⟩ := hstep
    obtain ⟨st', h'⟩ := ih st1 hrest
    exact ⟨st', by simp only [Pool.Run.steps, h1, h']⟩

/-- A run of two sequences of steps is the run of the second from the state
the first ends in. -/
theorem Run_steps_append (E : Env) (G : Globals) (offset limit : Int) (pre post : List Run.Step) :
    ∀ st : Run.State, Pool.Run.steps E G offset limit st (pre ++ post) =
      match Pool.Run.steps E G offset limit st pre with
      | .error e => .error e
      | .ok st1 => Pool.Run.steps E G offset limit st1 post := by
  induction pre with
  | nil => intro st; rfl
  | cons s rest ih =>
    intro st
    simp only [List.cons_append, Pool.Run.steps]
    cases Pool.Run.step E G offset limit st s with
    | error e => rfl
    | ok st1 => exact ih st1

/-- A round of the `select` that runs `break Loop` hands nothing over and
counts no word. -/
theorem Run_break_step (E : Env) (G : Globals) (offset limit : Int) (st : Run.State)
    (sig : Run.Event) (hsig : sig.breaks = true) :
    ∃ st1, Pool.Run.step E G offset limit st (.select sig) = .ok st1 ∧ st1.stopped = true ∧
      st1.invoked = st.invoked ∧ st1.pool.Statistor.End = st.pool.Statistor.End := by
  by_cases hs : st.stopped = true
  · exact ⟨st, by simp only [Pool.Run.step, if_pos hs], hs, rfl, rfl⟩
  · cases sig with
    | word u ok => simp [Run.Event.breaks] at hsig
    | check source rand => simp [Run.Event.breaks] at hsig
    | addition unit ok => simp [Run.Event.breaks] at hsig
    | closeCh => exact ⟨{ st with stopped := true },
        by simp only [Pool.Run.step, if_neg hs, Pool.Run.select], rfl, rfl, rfl⟩
    | ctxDone => exact ⟨{ st with stopped := true },
        by simp only [Pool.Run.step, if_neg hs, Pool.Run.select], rfl, rfl, rfl⟩
    | poolCtxDone =>
      exact ⟨{ st with stopped := true },
        by simp only [Pool.Run.step, if_neg hs, Pool.Run.select], rfl, rfl, rfl⟩

/-- Once the loop is left, the `select` receives nothing more: whatever steps
follow, no unit is handed over and the end cursor stays. -/
theorem Run_stopped_frame (E : Env) (G : Globals) (offset limit : Int) (post : List Run.Step) :
    ∀ (st st' : Run.State), st.stopped = true →
      Pool.Run.steps E G offset limit st post = .ok st' →
      st'.stopped = true ∧ st'.invoked = st.invoked ∧
        st'.pool.Statistor.End = st.pool.Statistor.End := by
  induction post with
  | nil =>
    intro st st' hs h
    simp only [Pool.Run.steps, Except.ok.injEq] at h
    subst h
    exact ⟨hs, rfl, rfl⟩
  | cons s rest ih =>
    intro st st' hs h
    simp only [Pool.Run.steps] at h
    cases hstep : Pool.Run.step E G offset limit st s with
    | error e => simp [hstep] at h
    | ok st1 =>
      simp only [hstep] at h
      have hst1 : st1.stopped = true ∧ st1.invoked = st.invoked ∧
          st1.pool.Statistor.End = st.pool.Statistor.End := by
        cases s with
        | select ev =>
          simp only [Pool.Run.step, if_pos hs, Except.ok.injEq] at hstep
          subst hstep
          exact ⟨hs, rfl, rfl⟩
        | work n x =>
          simp only [Pool.Run.step] at hstep
          cases hwait : st.waiting[n]? with
          | none =>
            simp only [hwait, Except.ok.injEq] at hstep
            subst hstep
            exact ⟨hs, rfl, rfl⟩
          | some unit =>
            simp only [hwait] at hstep
            cases hwork : st.pool.worker E G unit x with
            | error e => simp [hwork] at hstep
            | ok pool =>
              simp only [hwork, Except.ok.injEq] at hstep
              subst hstep
              obtain ⟨-, fe, -, -⟩ := worker_frame E G st.pool unit x pool hwork
              exact ⟨hs, rfl, fe⟩
      obtain ⟨a, b, c⟩ := ih st1 st' hst1.1 h
      exact ⟨a, b.trans hst1.2.1, c.trans hst1.2.2⟩

/-- C17 (amended): on a pool whose `reqCount` starts at 1 (`NewPool`) and whose
`Statistor.End` starts at 0 (a fresh Statistor), for every sequence of rounds
of the `select` of `Pool.Run` interleaved with workers of the requests pool,
in which the loop is not left: the WordSource units handed to
`reqPool.Invoke` are exactly those of the non-empty words `w_i` read with
max(offset, 1) ≤ i ≤ limit, in stream order, and `Statistor.End` has grown by
one for every word read, skipped or not. The rounds of the `select` alone
always return. When the loop is then left (`closeCh`, or one of the two
contexts is done), no further word is read: whatever follows, the units
handed over and the end cursor are those of the words read before. -/
theorem C17_Run_word_dispatch (E : Env) (G : Globals) (offset limit : Int) (pool : Pool)
    (steps : List Run.Step) (hreq : pool.reqCount = 1) (hend : pool.Statistor.End = 0)
    (hadm : ∀ s ∈ steps, s.admissible) :
    (∀ st', Pool.Run.steps E G offset limit { pool := pool } steps = .ok st' →
      st'.invoked.filter (fun u => decide (u.source = .WordSource)) =
        Run.claimed offset limit (Run.wordsRead steps) ∧
      st'.pool.Statistor.End = pool.Statistor.End + (Run.wordsRead steps).length) ∧
    ((∀ s ∈ steps, ∃ ev, s = Run.Step.select ev) →
      ∃ st', Pool.Run.steps E G offset limit { pool := pool } steps = .ok st') ∧
    (∀ (sig : Run.Event) (post : List Run.Step) (st'' : Run.State), sig.breaks = true →
      Pool.Run.steps E G offset limit { pool := pool } (steps ++ .select sig :: post) = .ok st'' →
      st''.stopped = true ∧
      st''.invoked.filter (fun u => decide (u.source = .WordSource)) =
        Run.claimed offset limit (Run.wordsRead steps) ∧
      st''.pool.Statistor.End = pool.Statistor.End + (Run.wordsRead steps).length) := by
  have hphase : (pool.reqCount = 1 + ((0 : Nat) : Int) ∧ 1 + ((0 : Nat) : Int) < offset ∧
      ∀ u ∈ ([] : List Unit), u.source ≠ .WordSource) ∨
      (offset ≤ pool.reqCount ∧ offset ≤ ((0 : Nat) : Int) + 1) := by
    by_cases ho : 1 < offset
    · exact Or.inl ⟨by rw [hreq]; rfl, by simpa using ho, fun u hu => absurd hu (List.not_mem_nil u)⟩
    · refine Or.inr ⟨?_, ?_⟩
      · rw [hreq]; omega
      · simp only [Nat.cast_zero, zero_add]; omega
  have hread : ∀ st', Pool.Run.steps E G offset limit { pool := pool } steps = .ok st' →
      st'.invoked.filter (fun u => decide (u.source = .WordSource)) =
        Run.claimed offset limit (Run.wordsRead steps) ∧
      st'.pool.Statistor.End = pool.Statistor.End + (Run.wordsRead steps).length := by
    intro st' h
    obtain ⟨r1, r2⟩ := Run_steps_invariant E G offset limit 0 steps { pool := pool } 0 st' hadm rfl
      (by show pool.Statistor.End = 0 + ((0 : Nat) : Int); rw [hend]; rfl) hphase h
    refine ⟨?_, ?_⟩
    · rw [r2, Run_expected_enumFrom]
      simp only [List.filter_nil, List.nil_append, zero_add, Run.claimed, List.enum]
    · rw [r1, hend]
      simp
  refine ⟨hread, fun hsel => Run_select_returns E G offset limit steps _ hsel, ?_⟩
  intro sig post st'' hsig h
  rw [Run_steps_append] at h
  cases hpre : Pool.Run.steps E G offset limit { pool := pool } steps with
  | error e => simp [hpre] at h
  | ok st' =>
    simp only [hpre, Pool.Run.steps] at h
    obtain ⟨st1, h1, hstop, hinv, hend1⟩ := Run_break_step E G offset limit st' sig hsig
    simp only [h1] at h
    obtain ⟨a, b, c⟩ := Run_stopped_frame E G offset limit post st1 st'' hstop h
    obtain ⟨r1, r2⟩ := hread st' hpre
    exact ⟨a, by rw [b, hinv, r1], by rw [c, hend1, r2]⟩

/-- C17 (refuted as stated): on the word stream a, b, c, d with offset 3 and
limit 10 the claim expects the units of c and d; in the run in which the
`select` receives from `closeCh` after the second word, the loop is left with
the end cursor at 2 and no unit is handed over. -/
theorem C17_early_close_counterexample :
    sampleInitPool.reqCount = 1 ∧ sampleInitPool.Statistor.End = 0 ∧
    Run.wordsRead sampleCloseSteps = ["a", "b", "c", "d"] ∧
    Run.claimed 3 10 ["a", "b", "c", "d"] =
      [newUnit "c" .WordSource, newUnit "d" .WordSource] ∧
    (Pool.Run.steps sampleEnv Globals.init 3 10 { pool := sampleInitPool } sampleCloseSteps).toOption.map
      (fun st => (st.invoked, st.pool.Statistor.End, st.pool.reqCount, st.stopped)) =
      some ([], 2, 3, true) := by
  refine ⟨rfl, rfl, rfl, by decide, rfl⟩

/-- C15 on the source values 63 and 0: the first index, 63, is discarded, the
other nine indices of the first value and six of the second give the letter
`a`, and the result has the shape of the claim. -/
theorem C15_RandPath_shape_witness :
    RandPath [63, 0] = some "/aaaaaaaaaaaaaaa" ∧
    15 ≤ (([63, 0] : List Nat).map (fun v => RandPath.usable v 10)).sum ∧
    (∃ s, RandPath [63, 0] = some s) ∧
    ∃ path : List Char, "/aaaaaaaaaaaaaaa" = String.mk ('/' :: path) ∧ path.length = 15 ∧
      (∀ c ∈ path, c ∈ letters.toList ∧ c.isAlpha = true) ∧
      ("/aaaaaaaaaaaaaaa" : String).utf8ByteSize = 16 :=
  ⟨by decide, by decide, (C15_RandPath_shape [63, 0]).2.1 (by decide),
    (C15_RandPath_shape [63, 0]).1 "/aaaaaaaaaaaaaaa" (by decide)⟩

/-- C17 on a run with offset 2 and limit 4 that reads the words a, b, the
empty word, c and d: the run returns, the units of b and c are the WordSource
units handed over, and the end cursor is 5. -/
theorem C17_Run_word_dispatch_witness :
    sampleInitPool.reqCount = 1 ∧ sampleInitPool.Statistor.End = 0 ∧
    (∀ s ∈ sampleRunSteps, s.admissible) ∧
    ∃ st', Pool.Run.steps sampleEnv Globals.init 2 4 { pool := sampleInitPool } sampleRunSteps
        = .ok st' ∧
      st'.invoked.filter (fun u => decide (u.source = .WordSource)) =
        [newUnit "b" .WordSource, newUnit "c" .WordSource] ∧
      st'.pool.Statistor.End = 5 := by
  have hadm : ∀ s ∈ sampleRunSteps, s.admissible := by
    intro s hs
    simp only [sampleRunSteps, List.mem_cons, List.mem_singleton, List.not_mem_nil, or_false] at hs
    rcases hs with rfl | rfl | rfl | rfl | rfl | rfl | rfl <;>
      simp [Run.Step.admissible, newUnit]
  have hT := C17_Run_word_dispatch sampleEnv Globals.init 2 4 sampleInitPool sampleRunSteps
    rfl rfl hadm
  obtain ⟨st', h⟩ := hT.2.1 (by
    intro s hs
    simp only [sampleRunSteps, List.mem_cons, List.mem_singleton, List.not_mem_nil, or_false] at hs
    rcases hs with rfl | rfl | rfl | rfl | rfl | rfl | rfl <;> exact ⟨_, rfl⟩)
  obtain ⟨a, b⟩ := hT.1 st' h
  refine ⟨rfl, rfl, hadm, st', h, ?_, ?_⟩
  · rw [a]
    decide
  · rw [b]
    rfl

end Spray
